import Mathlib

/-!
Verification development for `deploy.py` (Terraform + Ansible deployment
orchestrator).  The script is embedded shallowly:

* strings are `List Char`;
* the two `re.sub` calls that update the Ansible inventory are embedded as
  deterministic scanners (`subAnsibleHost`, `subAnsiblePwd`) that reproduce
  Python's leftmost, non-overlapping, MULTILINE substitution.  Both patterns
  are backtracking-free: every `\s+`/`[\d\.]+`/`[^"]*` run is maximal and is
  followed by a literal outside the run's character class, so greedy maximal
  munch is exact.  `\s` and `\d` are modelled on their ASCII fragments
  (the inventory data in question is ASCII), and the replacement template is
  modelled as literal insertion of the interpolated value;
* `str.replace` (used for `terraform.tfvars` derivation) is embedded as
  `replaceAll` (leftmost, non-overlapping, continue after the replacement);
* the retry loops are embedded as trace-producing functions over an oracle
  giving each external invocation's outcome; blocking sleeps and subprocess
  invocations become trace events;
* log lines are embedded structurally (constructor + interpolated data), so
  "a log line contains the secret" means the event interpolates the secret,
  not accidental substring coincidence.

Recursive scanners use explicit fuel (one unit per consumed character plus
one) so that everything reduces in the kernel; `*_eq` lemmas recover the
natural unfolding equations and all proofs use only those.
-/

namespace Deploy

/-- ASCII fragment of Python's `\s` class (` \t\n\r\v\f`). -/
def pySpace (c : Char) : Bool :=
  c == ' ' || c == '\t' || c == '\n' || c == '\r' || c == '\x0b' || c == '\x0c'

/-- The character class `[\d\.]` of the `ansible_host` pattern. -/
def digitDot (c : Char) : Bool :=
  c.isDigit || c == '.'

/-- `ansible_host:`, the literal core of the host pattern at deploy.py:234. -/
def litHost : List Char := [ 'a', 'n', 's', 'i', 'b', 'l', 'e', '_', 'h', 'o', 's', 't', ':' ]

/-- `ansible_password:`, the literal core of the secret pattern at deploy.py:242. -/
def litPwd : List Char :=
  [ 'a', 'n', 's', 'i', 'b', 'l', 'e', '_', 'p', 'a', 's', 's', 'w', 'o', 'r', 'd', ':' ]

/-- Attempt to match `(^\s+ansible_host:\s+)[\d\.]+` at the head of `s`
(the caller guarantees the head of `s` is at a line start).  Returns
`(group1, matched value, rest of the string)`. -/
def matchHostAt (s : List Char) : Option (List Char × List Char × List Char) :=
  let w1 := s.takeWhile pySpace
  let r1 := s.dropWhile pySpace
  if w1 = [] then none
  else if litHost.isPrefixOf r1 then
    let r2 := r1.drop litHost.length
    let w2 := r2.takeWhile pySpace
    let r3 := r2.dropWhile pySpace
    if w2 = [] then none
    else
      let v := r3.takeWhile digitDot
      let r4 := r3.dropWhile digitDot
      if v = [] then none
      else some (w1 ++ litHost ++ w2, v, r4)
  else none

/-- Attempt to match `(^\s+ansible_password:\s+)"[^"]*"` at the head of `s`.
Returns `(group1, quoted value without the quotes, rest after the closing
quote)`. -/
def matchPwdAt (s : List Char) : Option (List Char × List Char × List Char) :=
  let w1 := s.takeWhile pySpace
  let r1 := s.dropWhile pySpace
  if w1 = [] then none
  else if litPwd.isPrefixOf r1 then
    let r2 := r1.drop litPwd.length
    let w2 := r2.takeWhile pySpace
    let r3 := r2.dropWhile pySpace
    if w2 = [] then none
    else
      match r3 with
      | '"' :: r4 =>
        let v := r4.takeWhile (fun c => c != '"')
        let r5 := r4.dropWhile (fun c => c != '"')
        match r5 with
        | '"' :: r6 => some (w1 ++ litPwd ++ w2, v, r6)
        | _ => none
      | _ => none
  else none

/-- Generic fueled `re.sub` scanner.  `m s` returns the replacement text and
the rest of the string when the pattern matches at the current position; the
Boolean tracks whether the current position is at a line start (string start
or just after `'\n'`), which is where `^` can match under `re.MULTILINE`.
Both patterns end in a non-newline character, so scanning resumes mid-line
after a replacement. -/
def scanFuel (m : List Char → Option (List Char × List Char)) :
    Nat → Bool → List Char → List Char
  | 0, _, s => s
  | fuel + 1, b, s =>
    if b then
      match m s with
      | some (rep, rest) => rep ++ scanFuel m fuel false rest
      | none =>
        match s with
        | [] => []
        | c :: t => c :: scanFuel m fuel (c == '\n') t
    else
      match s with
      | [] => []
      | c :: t => c :: scanFuel m fuel (c == '\n') t

/-- Host matcher packaged for the scanner: the replacement template
`rf'\g<1>{instance_ip}'` (deploy.py:235) is modelled as group 1 followed by
the host inserted literally.  Python's `re.sub` additionally processes
backslash escapes occurring in the replacement template — escapes the
interpolated host would contribute — so this literal insertion is exact
precisely when the host contains no backslash, which the hypotheses of the
inventory theorems guarantee (a digit/dot host for idempotence, an
explicitly backslash-free host for the frame property); group text itself
is reinserted verbatim by `re.sub`, exactly as here. -/
def mHost (ip : List Char) (s : List Char) : Option (List Char × List Char) :=
  match matchHostAt s with
  | some (g, _, r) => some (g ++ ip, r)
  | none => none

/-- Secret matcher packaged for the scanner: the replacement template
`rf'\g<1>"{password}"'` (deploy.py:243) is modelled as group 1 followed by
the quoted secret inserted literally.  Python's `re.sub` additionally
processes backslash escapes in the replacement template (a backslash-n
pair becomes a newline, `\g<0>` the whole match), so this literal
insertion is exact precisely when the secret contains no backslash, which
the backslash-free hypotheses of the inventory theorems guarantee; group
text itself is reinserted verbatim by `re.sub`, exactly as here. -/
def mPwd (pwd : List Char) (s : List Char) : Option (List Char × List Char) :=
  match matchPwdAt s with
  | some (g, _, r) => some (g ++ '"' :: (pwd ++ [ '"' ]), r)
  | none => none

/-- Run a substitution scanner over a whole string; one unit of fuel per
character suffices because every match consumes at least one character. -/
def scanStr (m : List Char → Option (List Char × List Char)) (b : Bool)
    (s : List Char) : List Char :=
  scanFuel m (s.length + 1) b s

/-- `re.sub(r'(^\s+ansible_host:\s+)[\d\.]+', rf'\g<1>{ip}', s, flags=re.MULTILINE)`
(deploy.py:233-238). -/
def subAnsibleHost (ip : List Char) (b : Bool) (s : List Char) : List Char :=
  scanStr (mHost ip) b s

/-- `re.sub(r'(^\s+ansible_password:\s+)"[^"]*"', rf'\g<1>"{pwd}"', s, flags=re.MULTILINE)`
(deploy.py:241-246). -/
def subAnsiblePwd (pwd : List Char) (b : Bool) (s : List Char) : List Char :=
  scanStr (mPwd pwd) b s

/-- The Credential Bridge's inventory update (deploy.py:227-250): substitute
the host, then the secret, each starting at the beginning of the file (a line
start). -/
def updateInventory (ip pwd : List Char) (s : List Char) : List Char :=
  subAnsiblePwd pwd true (subAnsibleHost ip true s)

/-- A matcher shrinks its input: a successful match consumes at least one
character.  This is what makes the single-fuel-per-character budget exact. -/
def Shrinks (m : List Char → Option (List Char × List Char)) : Prop :=
  ∀ s x, m s = some x → x.2.length < s.length

/-- `litHost` without its first character. -/
def litHostT : List Char := [ 'n', 's', 'i', 'b', 'l', 'e', '_', 'h', 'o', 's', 't', ':' ]

/-- `litPwd` without its first character. -/
def litPwdT : List Char :=
  [ 'n', 's', 'i', 'b', 'l', 'e', '_', 'p', 'a', 's', 's', 'w', 'o', 'r', 'd', ':' ]

/-- Does `ansible_host:\s+[\d\.]+` match at the first non-space character of
`t`?  Whether the full pattern matches at a line start `c :: t` with `c`
whitespace depends only on this. -/
def hostBody (t : List Char) : Bool :=
  litHost.isPrefixOf (t.dropWhile pySpace)
    && !(((t.dropWhile pySpace).drop litHost.length).takeWhile pySpace).isEmpty
    && !((((t.dropWhile pySpace).drop
          litHost.length).dropWhile pySpace).takeWhile digitDot).isEmpty

/-- The first character after the leading whitespace of `l` is not in
`[\d\.]` (or there is no such character); this is exactly what makes the
`[\d\.]+` component of the host pattern fail. -/
def WsHeadOK (l : List Char) : Prop :=
  ∀ d, (l.dropWhile pySpace).head? = some d → digitDot d = false

/-- Line-start state of the scanner after walking over `w` starting in state
`b`: at the new position, `^` matches exactly when the previous character was
a newline. -/
def stateAfter (b : Bool) (w : List Char) : Bool :=
  w.foldl (fun _ c => c == '\n') b

/-- Does `ansible_password:\s+"[^"]*"` match at the first non-space character
of `t`?  Whether the full secret pattern matches at a line start `c :: t`
with `c` whitespace depends only on this. -/
def pwdBody (t : List Char) : Bool :=
  litPwd.isPrefixOf (t.dropWhile pySpace)
    && !(((t.dropWhile pySpace).drop litPwd.length).takeWhile pySpace).isEmpty
    && ((((t.dropWhile pySpace).drop
          litPwd.length).dropWhile pySpace).head? == some '"')
    && !((((t.dropWhile pySpace).drop
          litPwd.length).dropWhile pySpace).tail.dropWhile
            (fun c => c != '"')).isEmpty

/-- The first character after the leading whitespace of `l` is not `"` (or
there is no such character); this makes the `"` component of the secret
pattern fail. -/
def WsHeadQ (l : List Char) : Prop :=
  ∀ d, (l.dropWhile pySpace).head? = some d → ¬ d = '"'

/-- Fueled check that every `ansible_host` match the scanner would find in
`s` already carries the value `ip`; on such strings the host substitution is
the identity. -/
def hostCleanFuel (ip : List Char) : Nat → Bool → List Char → Bool
  | 0, _, _ => true
  | fuel + 1, b, s =>
    if b then
      match matchHostAt s with
      | some (_, v, r) => (v == ip) && hostCleanFuel ip fuel false r
      | none =>
        match s with
        | [] => true
        | c :: t => hostCleanFuel ip fuel (c == '\n') t
    else
      match s with
      | [] => true
      | c :: t => hostCleanFuel ip fuel (c == '\n') t

/-- `hostCleanFuel` with the exact fuel budget. -/
def hostClean (ip : List Char) (b : Bool) (s : List Char) : Bool :=
  hostCleanFuel ip (s.length + 1) b s

/-- Observable actions of the playbook retry loop. -/
inductive PEvent
  | sleep (secs : Nat)
  | run (rc : Int)
  deriving DecidableEq

/-- Is a retry-loop event a playbook invocation? -/
def isRunEvent : PEvent → Bool
  | PEvent.run _ => true
  | PEvent.sleep _ => false

/-- The retry loop of deploy.py:274-296, with `rcs i` the exit code of the
`i`-th playbook invocation (0-based; the source indexes invocations by
`retry_count`).  `budget` counts the remaining admissible iterations: the
source's guard `retry_count <= max_retries` holds exactly while
`budget > 0` under the invariant `budget + retryCount = maxRetries + 1`.
Each iteration sleeps 30 s first when `retry_count > 0`, then runs the
playbook; exit code 0 sets `success`, otherwise `retry_count` increments. -/
def playbookGo (rcs : Nat → Int) : Nat → Nat → List PEvent × Bool
  | 0, _ => ([], false)
  | budget + 1, retryCount =>
    let pre : List PEvent :=
      if retryCount > 0 then [ PEvent.sleep 30 ] else []
    let rc := rcs retryCount
    if rc = 0 then (pre ++ [ PEvent.run rc ], true)
    else
      let rest := playbookGo rcs budget (retryCount + 1)
      (pre ++ PEvent.run rc :: rest.1, rest.2)

/-- The whole retry controller: `max_retries` total retries after the first
attempt, starting from `retry_count = 0` and `success = False`. -/
def runPlaybookRetries (rcs : Nat → Int) (maxRetries : Nat) :
    List PEvent × Bool :=
  playbookGo rcs (maxRetries + 1) 0

/-- `max_retries = 2` at deploy.py:270. -/
def ansibleMaxRetries : Nat := 2

/-- The canonical shape claimed for the retry trace: one sleep-free first
invocation, then, for each retry, exactly one 30-second stabilization sleep
followed by the next invocation (and nothing after the last invocation). -/
def sleepRunBlocks (rcs : Nat → Int) (start k : Nat) : List PEvent :=
  ((List.range k).map
    (fun i => [ PEvent.sleep 30, PEvent.run (rcs (start + i)) ])).flatten

/-- Shape of a complete retry-controller trace with `k` invocations. -/
def playbookTraceShape (rcs : Nat → Int) (k : Nat) : List PEvent :=
  PEvent.run (rcs 0) :: sleepRunBlocks rcs 1 (k - 1)

/-! ### The readiness prober (deploy.py:106-140) -/

/-- Outcome of one `sock.connect_ex` attempt: either a result code (0 means
the port accepted the connection) or an exception caught by the
`except` clause of the loop body. -/
inductive ConnResult
  | code (n : Int)
  | exc
  deriving DecidableEq

/-- Observable actions of the prober: a TCP connection attempt with its
`settimeout` value in seconds, or a blocking sleep. -/
inductive WEvent
  | connAttempt (timeoutSecs : Nat)
  | sleep (secs : Nat)
  deriving DecidableEq

/-- Is a prober event a connection attempt? -/
def isAttemptEvent : WEvent → Bool
  | WEvent.connAttempt _ => true
  | WEvent.sleep _ => false

/-- The `for attempt in range(1, max_attempts + 1)` loop of
deploy.py:114-136, with `res i` the outcome of the `i`-th attempt
(1-based as in the source).  `budget` is the number of remaining
iterations (`maxAttempts - attempt + 1`).  Each iteration attempts a
connection with a 5-second timeout; on code 0 it returns `true`
immediately, otherwise it sleeps 30 s when `attempt < max_attempts`.
Falling out of the loop returns `false`. -/
def winrmGo (res : Nat → ConnResult) (maxAttempts : Nat) :
    Nat → Nat → List WEvent × Bool
  | 0, _ => ([], false)
  | budget + 1, attempt =>
    if res attempt = ConnResult.code 0 then ([ WEvent.connAttempt 5 ], true)
    else
      let rest := winrmGo res maxAttempts budget (attempt + 1)
      if attempt < maxAttempts then
        (WEvent.connAttempt 5 :: WEvent.sleep 30 :: rest.1, rest.2)
      else (WEvent.connAttempt 5 :: rest.1, rest.2)

/-- `test_winrm_connectivity(ip, port=5985, max_attempts=20)` viewed through
its attempt outcomes; the trace of attempts and sleeps plus the returned
Boolean. -/
def test_winrm_connectivity (res : Nat → ConnResult) (maxAttempts : Nat) :
    List WEvent × Bool :=
  winrmGo res maxAttempts maxAttempts 1

/-- Shape of the tail of a prober trace after the first attempt. -/
def wAttemptBlocks (k : Nat) : List WEvent :=
  ((List.range k).map
    (fun _ => [ WEvent.sleep 30, WEvent.connAttempt 5 ])).flatten

/-- Shape of a complete prober trace with `k` attempts. -/
def winrmTraceShape (k : Nat) : List WEvent :=
  WEvent.connAttempt 5 :: wAttemptBlocks (k - 1)

/-! ### terraform.tfvars derivation (deploy.py:152-168) -/

/-- Fueled model of Python `str.replace`: scan left to right; at a match of
`pat` emit `rep` and continue scanning after the matched text (the inserted
replacement is not rescanned). -/
def replaceAllFuel (pat rep : List Char) : Nat → List Char → List Char
  | 0, s => s
  | _ + 1, [] => []
  | fuel + 1, c :: t =>
    if !pat.isEmpty && pat.isPrefixOf (c :: t) then
      rep ++ replaceAllFuel pat rep fuel ((c :: t).drop pat.length)
    else c :: replaceAllFuel pat rep fuel t

/-- `s.replace(pat, rep)` for the nonempty patterns used by the source
(for an empty pattern this model is the identity, unlike Python, but the
source never calls it that way). -/
def replaceAll (pat rep s : List Char) : List Char :=
  replaceAllFuel pat rep s.length s

/-- `str(b).lower()` for a Python bool. -/
def pyBoolStr (b : Bool) : List Char :=
  if b then [ 't', 'r', 'u', 'e' ] else [ 'f', 'a', 'l', 's', 'e' ]

/-- Modelled from the spec: `terraform.tfvars.example` is not under `src/`;
per the spec it is a template containing exactly the five known default
assignments (`environment = "dev"`, `aws_region = "us-east-1"`,
`instance_type = "t3a.medium"`, `use_elastic_ip = false`,
`create_rds = false`), here with one operator comment line that the
substitution must leave byte-identical. -/
def tfvarsTemplate : List Char :=
  "# Terraform variables\nenvironment = \"dev\"\naws_region = \"us-east-1\"\ninstance_type = \"t3a.medium\"\nuse_elastic_ip = false\ncreate_rds = false\n".toList

/-- The search literal of deploy.py:161. -/
def envPat : List Char := "environment = \"dev\"".toList

/-- The search literal of deploy.py:162. -/
def regionPat : List Char := "aws_region = \"us-east-1\"".toList

/-- The search literal of deploy.py:163. -/
def itypePat : List Char := "instance_type = \"t3a.medium\"".toList

/-- The search literal of deploy.py:164. -/
def eipPat : List Char := "use_elastic_ip = false".toList

/-- The search literal of deploy.py:165. -/
def rdsPat : List Char := "create_rds = false".toList

/-- The replacement f-string of deploy.py:161. -/
def envRep (env : List Char) : List Char :=
  "environment = \"".toList ++ env ++ [ '"' ]

/-- The replacement f-string of deploy.py:162. -/
def regionRep (region : List Char) : List Char :=
  "aws_region = \"".toList ++ region ++ [ '"' ]

/-- The replacement f-string of deploy.py:163. -/
def itypeRep (itype : List Char) : List Char :=
  "instance_type = \"".toList ++ itype ++ [ '"' ]

/-- The replacement f-string of deploy.py:164. -/
def eipRep (eip : Bool) : List Char :=
  "use_elastic_ip = ".toList ++ pyBoolStr eip

/-- The replacement f-string of deploy.py:165. -/
def rdsRep (rds : Bool) : List Char :=
  "create_rds = ".toList ++ pyBoolStr rds

/-- The five chained `str.replace` calls of deploy.py:161-165. -/
def deriveTfvars (env region itype : List Char) (eip rds : Bool)
    (tpl : List Char) : List Char :=
  replaceAll rdsPat (rdsRep rds)
    (replaceAll eipPat (eipRep eip)
      (replaceAll itypePat (itypeRep itype)
        (replaceAll regionPat (regionRep region)
          (replaceAll envPat (envRep env) tpl))))

/-- Characters admissible in a valid environment name, region, or instance
shape (interpreting the spec's "valid DeploymentRequest"): alphanumerics,
dash, dot, and underscore. -/
def okChar (c : Char) : Bool :=
  c.isAlphanum || c == '-' || c == '.' || c == '_'

/-! ### Orchestration of the configuration phase (deploy.py:200-314, 331-356, 358-430) -/

/-- Structured log and effect events of `configure_with_ansible`.  Log lines
are modelled by constructors carrying exactly the data the source
interpolates into them, so "a log line contains the secret" is the
structural statement that the event interpolates the secret's value. -/
inductive CEvent
  | logNotReady
  | logManualCmd
  | getPassword (instanceId : List Char)
  | logPwdRetrieved
  | writeInventory (content : List Char)
  | logUpdatedInventory (ip : List Char)
  | logPlaybookStart
  | sleepEvent (secs : Nat)
  | runPlaybook (rc : Int)
  | logPlaybookOk
  | logPlaybookFailed (attempts : Nat)
  | logRdpInfo (ip : List Char)
  | logIisInfo (ip : List Char)
  | logAdminPassword (pwd : List Char)
  | logPwdManualCmd (instanceId : List Char)
  deriving DecidableEq

/-- Only the final-summary line `Administrator Password: {password}`
(deploy.py:307) interpolates the secret's value into a log line. -/
def logsSecretInFull : CEvent → Bool
  | CEvent.logAdminPassword _ => true
  | _ => false

/-- Did the configuration engine get invoked? -/
def isPlaybookEvent : CEvent → Bool
  | CEvent.runPlaybook _ => true
  | _ => false

/-- Is the event a write of the inventory file? -/
def isWriteEvent : CEvent → Bool
  | CEvent.writeInventory _ => true
  | _ => false

/-- Is the event a retrieval of the Administrator secret? -/
def isGetPasswordEvent : CEvent → Bool
  | CEvent.getPassword _ => true
  | _ => false

/-- Lift a retry-loop event into a configuration event. -/
def pbEventToC : PEvent → CEvent
  | PEvent.sleep n => CEvent.sleepEvent n
  | PEvent.run rc => CEvent.runPlaybook rc

/-- The oracle for one run: connection-attempt outcomes, the secret
returned by `aws ec2 get-password-data` (`[]` models the falsy empty
string), the current inventory file, and the playbook exit codes. -/
structure World where
  conn : Nat → ConnResult
  passwordData : List Char
  inventory : List Char
  playbookRc : Nat → Int

/-- `configure_with_ansible(instance_ip, instance_id, args)`
(deploy.py:200-313) on the modelled paths: readiness probe; early return
with a manual-command warning when it fails; secret retrieval; when the
secret is truthy, the targeted inventory edit, the retry-wrapped playbook
run, and the final summary (which prints the secret last); when falsy, a
manual-command warning.  OS-level exceptions (unreadable files, a failing
`aws` invocation) are outside this embedding.  Returns the event trace and
the final inventory file content. -/
def configure_with_ansible (w : World) (instanceIp instanceId : List Char) :
    List CEvent × List Char :=
  if (test_winrm_connectivity w.conn 20).2 = false then
    ([ CEvent.logNotReady, CEvent.logManualCmd ], w.inventory)
  else if w.passwordData = [] then
    ([ CEvent.getPassword instanceId, CEvent.logPwdManualCmd instanceId ],
      w.inventory)
  else
    let newInv := updateInventory instanceIp w.passwordData w.inventory
    let pb := runPlaybookRetries w.playbookRc ansibleMaxRetries
    (CEvent.getPassword instanceId :: CEvent.logPwdRetrieved
        :: CEvent.writeInventory newInv
        :: CEvent.logUpdatedInventory instanceIp
        :: CEvent.logPlaybookStart
        :: pb.1.map pbEventToC
      ++ (if pb.2 then [ CEvent.logPlaybookOk ]
          else [ CEvent.logPlaybookFailed (ansibleMaxRetries + 1) ])
      ++ [ CEvent.logRdpInfo instanceIp, CEvent.logIisInfo instanceIp,
           CEvent.logAdminPassword w.passwordData ],
     newInv)

/-- The `deploy` action of `main` (deploy.py:418-430) after provisioning
has produced the instance address and id: run the configuration phase
unless `--skip-ansible`, then fall through to `Script completed!` and exit
0.  The fatal `sys.exit(1)` paths live in the prerequisite checks and
`run_command`, which are outside these claims. -/
def mainDeploy (w : World) (instanceIp instanceId : List Char)
    (skipAnsible : Bool) : List CEvent × List Char × Int :=
  if skipAnsible then ([], w.inventory, 0)
  else
    let r := configure_with_ansible w instanceIp instanceId
    (r.1, r.2, 0)

/-- Events of the `ansible-only` action. -/
inductive AEvent
  | logErrNoPwd
  | runPlaybook (rc : Int)
  deriving DecidableEq

/-- Does `pat` occur as a contiguous substring of `s` (Python `in`)? -/
def hasSubstring (pat : List Char) : List Char → Bool
  | [] => pat.isEmpty
  | c :: t => pat.isPrefixOf (c :: t) || hasSubstring pat t

/-- `ansible_only()` (deploy.py:331-356): if `'ansible_password:'` does not
occur in the inventory, log an error and `sys.exit(1)`; otherwise run the
playbook once and fall through (exit 0).  Returns events and exit code. -/
def ansible_only (inv : List Char) (rc : Int) : List AEvent × Int :=
  if hasSubstring litPwd inv = false then ([ AEvent.logErrNoPwd ], 1)
  else ([ AEvent.runPlaybook rc ], 0)

/-! ### Basic list helper lemmas -/

lemma length_dropWhile_le (p : Char → Bool) (l : List Char) :
    (l.dropWhile p).length ≤ l.length := by
  induction l with
  | nil => simp [List.dropWhile]
  | cons c t ih =>
    by_cases h : p c
    · simpa [List.dropWhile, h] using Nat.le_succ_of_le ih
    · simp [List.dropWhile, h]

lemma all_takeWhile (p : Char → Bool) (l : List Char) :
    (l.takeWhile p).all p = true := by
  induction l with
  | nil => simp [List.takeWhile]
  | cons c t ih =>
    by_cases h : p c
    · simp [List.takeWhile, h, ih]
    · simp [List.takeWhile, h]

lemma head_of_dropWhile (p : Char → Bool) (l : List Char) (c : Char)
    (h : (l.dropWhile p).head? = some c) : p c = false := by
  induction l with
  | nil => simp [List.dropWhile] at h
  | cons d t ih =>
    by_cases hd : p d
    · exact ih (by simpa [List.dropWhile, hd] using h)
    · have : d = c := by simpa [List.dropWhile, hd] using h
      subst this
      simpa using hd

lemma takeWhile_app_of_all {p : Char → Bool} {l₁ : List Char} (l₂ : List Char)
    (h : l₁.all p = true) : (l₁ ++ l₂).takeWhile p = l₁ ++ l₂.takeWhile p := by
  induction l₁ with
  | nil => simp
  | cons c t ih =>
    simp only [List.all_cons, Bool.and_eq_true] at h
    simp [List.takeWhile, h.1, ih h.2]

lemma dropWhile_app_of_all {p : Char → Bool} {l₁ : List Char} (l₂ : List Char)
    (h : l₁.all p = true) : (l₁ ++ l₂).dropWhile p = l₂.dropWhile p := by
  induction l₁ with
  | nil => simp
  | cons c t ih =>
    simp only [List.all_cons, Bool.and_eq_true] at h
    simp [List.dropWhile, h.1, ih h.2]

lemma takeWhile_cons_neg {p : Char → Bool} {c : Char} (l : List Char)
    (h : p c = false) : (c :: l).takeWhile p = [] := by
  simp [List.takeWhile, h]

lemma dropWhile_cons_neg {p : Char → Bool} {c : Char} (l : List Char)
    (h : p c = false) : (c :: l).dropWhile p = c :: l := by
  simp [List.dropWhile, h]

lemma takeWhile_app_dropWhile (p : Char → Bool) (l : List Char) :
    l.takeWhile p ++ l.dropWhile p = l :=
  List.takeWhile_append_dropWhile p l

/-! ### Scanner API: fuel irrelevance and unfolding equations -/

lemma m_nil_none {m : List Char → Option (List Char × List Char)}
    (hm : Shrinks m) : m [] = none := by
  cases h : m [] with
  | none => rfl
  | some x => exact absurd (hm [] x h) (by simp)

lemma scanFuel_congr {m : List Char → Option (List Char × List Char)}
    (hm : Shrinks m) :
    ∀ (n f₁ f₂ : Nat) (b : Bool) (s : List Char), s.length ≤ n →
      s.length < f₁ → s.length < f₂ →
      scanFuel m f₁ b s = scanFuel m f₂ b s := by
  intro n
  induction n with
  | zero =>
    intro f₁ f₂ b s hs h1 h2
    have hnil : s = [] := List.eq_nil_of_length_eq_zero (Nat.le_zero.mp hs)
    subst hnil
    match f₁, h1 with
    | f₁ + 1, _ =>
      match f₂, h2 with
      | f₂ + 1, _ =>
        cases b <;> simp [scanFuel, m_nil_none hm]
  | succ n ih =>
    intro f₁ f₂ b s hs h1 h2
    match f₁, h1 with
    | f₁ + 1, h1 =>
      match f₂, h2 with
      | f₂ + 1, h2 =>
        cases b with
        | false =>
          cases s with
          | nil => simp [scanFuel]
          | cons c t =>
            have ht : t.length ≤ n := by
              simpa [Nat.succ_le_succ_iff] using hs
            have e1 : scanFuel m (f₁ + 1) false (c :: t)
                = c :: scanFuel m f₁ (c == '\n') t := rfl
            have e2 : scanFuel m (f₂ + 1) false (c :: t)
                = c :: scanFuel m f₂ (c == '\n') t := rfl
            rw [e1, e2, ih f₁ f₂ (c == '\n') t ht
              (Nat.lt_of_succ_lt_succ h1) (Nat.lt_of_succ_lt_succ h2)]
        | true =>
          cases hm' : m s with
          | some x =>
            obtain ⟨rep, rest⟩ := x
            have hlt : rest.length < s.length := hm s (rep, rest) hm'
            have e1 : scanFuel m (f₁ + 1) true s
                = rep ++ scanFuel m f₁ false rest := by
              simp [scanFuel, hm']
            have e2 : scanFuel m (f₂ + 1) true s
                = rep ++ scanFuel m f₂ false rest := by
              simp [scanFuel, hm']
            rw [e1, e2, ih f₁ f₂ false rest (by omega) (by omega) (by omega)]
          | none =>
            cases s with
            | nil => simp [scanFuel, hm']
            | cons c t =>
              have ht : t.length ≤ n := by
                simpa [Nat.succ_le_succ_iff] using hs
              have e1 : scanFuel m (f₁ + 1) true (c :: t)
                  = c :: scanFuel m f₁ (c == '\n') t := by
                simp [scanFuel, hm']
              have e2 : scanFuel m (f₂ + 1) true (c :: t)
                  = c :: scanFuel m f₂ (c == '\n') t := by
                simp [scanFuel, hm']
              rw [e1, e2, ih f₁ f₂ (c == '\n') t ht
                (Nat.lt_of_succ_lt_succ h1) (Nat.lt_of_succ_lt_succ h2)]

lemma scanStr_nil {m : List Char → Option (List Char × List Char)}
    (hm : Shrinks m) (b : Bool) : scanStr m b [] = [] := by
  cases b <;> simp [scanStr, scanFuel, m_nil_none hm]

lemma scanStr_match {m : List Char → Option (List Char × List Char)}
    (hm : Shrinks m) {s rep rest : List Char}
    (h : m s = some (rep, rest)) :
    scanStr m true s = rep ++ scanStr m false rest := by
  have hlt : rest.length < s.length := hm s (rep, rest) h
  have h1 : scanStr m true s = rep ++ scanFuel m s.length false rest := by
    simp [scanStr, scanFuel, h]
  rw [h1, scanFuel_congr hm rest.length s.length (rest.length + 1) false rest
    (Nat.le_refl _) hlt (Nat.lt_succ_self _)]
  rfl

lemma scanStr_none {m : List Char → Option (List Char × List Char)}
    {c : Char} {t : List Char} (h : m (c :: t) = none) :
    scanStr m true (c :: t) = c :: scanStr m (c == '\n') t := by
  simp [scanStr, scanFuel, h]

lemma scanStr_false {m : List Char → Option (List Char × List Char)}
    (c : Char) (t : List Char) :
    scanStr m false (c :: t) = c :: scanStr m (c == '\n') t := by
  simp [scanStr, scanFuel]

/-! ### Shape of a successful match -/

lemma matchHostAt_some {s g v r : List Char}
    (h : matchHostAt s = some (g, v, r)) :
    ∃ w1 w2, g = w1 ++ litHost ++ w2 ∧ w1 ≠ [] ∧ w1.all pySpace = true
      ∧ w2 ≠ [] ∧ w2.all pySpace = true ∧ v ≠ [] ∧ v.all digitDot = true
      ∧ s = g ++ v ++ r ∧ (∀ c, r.head? = some c → digitDot c = false) := by
  unfold matchHostAt at h
  by_cases h1 : s.takeWhile pySpace = []
  · simp [h1] at h
  by_cases h2 : litHost.isPrefixOf (s.dropWhile pySpace)
  · by_cases h3 :
      ((s.dropWhile pySpace).drop litHost.length).takeWhile pySpace = []
    · simp [h1, h2, h3] at h
    · by_cases h4 :
        (((s.dropWhile pySpace).drop litHost.length).dropWhile
          pySpace).takeWhile digitDot = []
      · simp [h1, h2, h3, h4] at h
      · simp only [h1, h2, h3, h4, if_neg, if_pos, ite_false, ite_true,
          Option.some.injEq, Prod.mk.injEq] at h
        obtain ⟨hg, hv, hr⟩ := h
        refine ⟨s.takeWhile pySpace,
          ((s.dropWhile pySpace).drop litHost.length).takeWhile pySpace,
          hg.symm, h1, all_takeWhile _ _, h3, all_takeWhile _ _,
          (by rw [← hv]; exact h4), (by rw [← hv]; exact all_takeWhile _ _),
          ?_, ?_⟩
        · obtain ⟨t2, ht2⟩ := List.isPrefixOf_iff_prefix.mp h2
          have hdrop : (s.dropWhile pySpace).drop litHost.length = t2 := by
            rw [← ht2, List.drop_left]
          rw [← hg, ← hv, ← hr]
          calc s = s.takeWhile pySpace ++ s.dropWhile pySpace :=
                (takeWhile_app_dropWhile pySpace s).symm
            _ = s.takeWhile pySpace ++ (litHost ++ t2) := by rw [ht2]
            _ = _ := by
                rw [hdrop]
                conv_lhs =>
                  rw [← takeWhile_app_dropWhile pySpace t2]
                conv_lhs =>
                  rw [← takeWhile_app_dropWhile digitDot
                    (t2.dropWhile pySpace)]
                simp [List.append_assoc]
        · intro c hc
          rw [← hr] at hc
          exact head_of_dropWhile digitDot _ c hc
  · simp [h1, h2] at h

lemma matchPwdAt_some {s g v r : List Char}
    (h : matchPwdAt s = some (g, v, r)) :
    ∃ w1 w2, g = w1 ++ litPwd ++ w2 ∧ w1 ≠ [] ∧ w1.all pySpace = true
      ∧ w2 ≠ [] ∧ w2.all pySpace = true ∧ v.all (fun c => c != '"') = true
      ∧ s = g ++ '"' :: (v ++ '"' :: r) := by
  unfold matchPwdAt at h
  by_cases h1 : s.takeWhile pySpace = []
  · simp [h1] at h
  by_cases h2 : litPwd.isPrefixOf (s.dropWhile pySpace)
  · by_cases h3 :
      ((s.dropWhile pySpace).drop litPwd.length).takeWhile pySpace = []
    · simp [h1, h2, h3] at h
    · simp only [h1, h2, h3, if_neg, if_pos, ite_false, ite_true] at h
      rcases hm3 : ((s.dropWhile pySpace).drop litPwd.length).dropWhile pySpace
        with _ | ⟨c0, r4⟩
      · rw [hm3] at h; simp at h
      · rw [hm3] at h
        split at h
        · rename_i r4x heq
          obtain ⟨hc0, hr4x⟩ := List.cons.injEq _ _ _ _ ▸ heq
          subst hc0
          subst hr4x
          split at h
          · rename_i r6 heq2
            simp only [Option.some.injEq, Prod.mk.injEq] at h
            obtain ⟨hg, hv, hr⟩ := h
            refine ⟨s.takeWhile pySpace,
              ((s.dropWhile pySpace).drop litPwd.length).takeWhile pySpace,
              hg.symm, h1, all_takeWhile _ _, h3, all_takeWhile _ _,
              (by rw [← hv]; exact all_takeWhile _ _), ?_⟩
            obtain ⟨t2, ht2⟩ := List.isPrefixOf_iff_prefix.mp h2
            have hdrop : (s.dropWhile pySpace).drop litPwd.length = t2 := by
              rw [← ht2, List.drop_left]
            have hr4 : r4 = v ++ '"' :: r := by
              rw [← hv, ← hr, ← heq2]
              exact (takeWhile_app_dropWhile (fun c => c != '"') r4).symm
            rw [← hg]
            calc s = s.takeWhile pySpace ++ s.dropWhile pySpace :=
                  (takeWhile_app_dropWhile pySpace s).symm
              _ = s.takeWhile pySpace ++ (litPwd ++ t2) := by rw [ht2]
              _ = _ := by
                  rw [hdrop] at hm3
                  rw [hdrop]
                  conv_lhs =>
                    rw [← takeWhile_app_dropWhile pySpace t2]
                  rw [hm3, hr4]
                  simp [List.append_assoc]
          · simp at h
        · simp at h
  · simp [h1, h2] at h

lemma shrinks_mHost (ip : List Char) : Shrinks (mHost ip) := by
  intro s x h
  unfold mHost at h
  cases hm : matchHostAt s with
  | none => rw [hm] at h; simp at h
  | some y =>
    obtain ⟨g, v, r⟩ := y
    rw [hm] at h
    simp only [Option.some.injEq] at h
    obtain ⟨w1, w2, hg, hw1, _, _, _, hv, _, hs, _⟩ := matchHostAt_some hm
    subst hs
    subst hg
    rw [← h]
    show r.length < ((w1 ++ litHost ++ w2) ++ v ++ r).length
    simp only [List.length_append]
    have hv' : 0 < v.length := List.length_pos.mpr hv
    omega

lemma all_head {p : Char → Bool} {c : Char} {t : List Char}
    (h : (c :: t).all p = true) : p c = true := by
  simp only [List.all_cons, Bool.and_eq_true] at h
  exact h.1

lemma all_tail {p : Char → Bool} {c : Char} {t : List Char}
    (h : (c :: t).all p = true) : t.all p = true := by
  simp only [List.all_cons, Bool.and_eq_true] at h
  exact h.2

lemma not_pySpace_of_digitDot {c : Char} (h : digitDot c = true) :
    pySpace c = false := by
  cases hp : pySpace c
  · rfl
  · exfalso
    simp only [pySpace, Bool.or_eq_true, beq_iff_eq] at hp
    rcases hp with ((((h1 | h1) | h1) | h1) | h1) | h1 <;>
      (subst h1; exact absurd h (by decide))

lemma takeWhile_litHost_app (z : List Char) :
    (litHost ++ z).takeWhile pySpace = [] :=
  takeWhile_cons_neg _ (by decide)

lemma dropWhile_litHost_app (z : List Char) :
    (litHost ++ z).dropWhile pySpace = litHost ++ z :=
  dropWhile_cons_neg _ (by decide)

lemma takeWhile_litPwd_app (z : List Char) :
    (litPwd ++ z).takeWhile pySpace = [] :=
  takeWhile_cons_neg _ (by decide)

lemma dropWhile_litPwd_app (z : List Char) :
    (litPwd ++ z).dropWhile pySpace = litPwd ++ z :=
  dropWhile_cons_neg _ (by decide)

/-! ### Re-matching at a freshly substituted site -/

lemma matchHostAt_rematch {w1 w2 ip x : List Char}
    (hw1 : w1 ≠ []) (hw1s : w1.all pySpace = true)
    (hw2 : w2 ≠ []) (hw2s : w2.all pySpace = true)
    (hip : ip ≠ []) (hipd : ip.all digitDot = true)
    (hx : ∀ c, x.head? = some c → digitDot c = false) :
    matchHostAt ((w1 ++ litHost ++ w2) ++ ip ++ x)
      = some (w1 ++ litHost ++ w2, ip, x) := by
  have hip1 : ip.takeWhile pySpace = [] := by
    cases ip with
    | nil => simp
    | cons c t =>
      exact takeWhile_cons_neg _ (not_pySpace_of_digitDot (all_head hipd))
  have hshape : (w1 ++ litHost ++ w2) ++ ip ++ x
      = w1 ++ (litHost ++ (w2 ++ (ip ++ x))) := by
    simp [List.append_assoc]
  have htw : ((w1 ++ litHost ++ w2) ++ ip ++ x).takeWhile pySpace = w1 := by
    rw [hshape, takeWhile_app_of_all _ hw1s, takeWhile_litHost_app]
    simp
  have hdw : ((w1 ++ litHost ++ w2) ++ ip ++ x).dropWhile pySpace
      = litHost ++ (w2 ++ (ip ++ x)) := by
    rw [hshape, dropWhile_app_of_all _ hw1s, dropWhile_litHost_app]
  have hipx_tw : (ip ++ x).takeWhile pySpace = [] := by
    cases ip with
    | nil => exact absurd rfl hip
    | cons c t =>
      exact takeWhile_cons_neg _ (not_pySpace_of_digitDot (all_head hipd))
  have hipx_dw : (ip ++ x).dropWhile pySpace = ip ++ x := by
    cases ip with
    | nil => exact absurd rfl hip
    | cons c t =>
      exact dropWhile_cons_neg _ (not_pySpace_of_digitDot (all_head hipd))
  have hxtw : x.takeWhile digitDot = [] := by
    cases x with
    | nil => simp
    | cons c t => exact takeWhile_cons_neg _ (hx c rfl)
  have hxdw : x.dropWhile digitDot = x := by
    cases x with
    | nil => simp
    | cons c t => exact dropWhile_cons_neg _ (hx c rfl)
  have hpre : litHost.isPrefixOf (litHost ++ (w2 ++ (ip ++ x))) = true :=
    List.isPrefixOf_iff_prefix.mpr (List.prefix_append _ _)
  simp only [matchHostAt, htw, hdw, hpre, List.drop_left,
    takeWhile_app_of_all (ip ++ x) hw2s, dropWhile_app_of_all (ip ++ x) hw2s,
    hipx_tw, hipx_dw, List.append_nil,
    takeWhile_app_of_all x hipd, dropWhile_app_of_all x hipd, hxtw, hxdw,
    if_pos, if_neg, ite_true, ite_false]
  simp [hw1, hw2, hip]

lemma matchPwdAt_rematch {w1 w2 p x : List Char}
    (hw1 : w1 ≠ []) (hw1s : w1.all pySpace = true)
    (hw2 : w2 ≠ []) (hw2s : w2.all pySpace = true)
    (hp : p.all (fun c => c != '"') = true) :
    matchPwdAt ((w1 ++ litPwd ++ w2) ++ '"' :: (p ++ '"' :: x))
      = some (w1 ++ litPwd ++ w2, p, x) := by
  have hshape : (w1 ++ litPwd ++ w2) ++ '"' :: (p ++ '"' :: x)
      = w1 ++ (litPwd ++ (w2 ++ '"' :: (p ++ '"' :: x))) := by
    simp [List.append_assoc]
  have htw : ((w1 ++ litPwd ++ w2) ++ '"' :: (p ++ '"' :: x)).takeWhile pySpace
      = w1 := by
    rw [hshape, takeWhile_app_of_all _ hw1s, takeWhile_litPwd_app]
    simp
  have hdw : ((w1 ++ litPwd ++ w2) ++ '"' :: (p ++ '"' :: x)).dropWhile pySpace
      = litPwd ++ (w2 ++ '"' :: (p ++ '"' :: x)) := by
    rw [hshape, dropWhile_app_of_all _ hw1s, dropWhile_litPwd_app]
  have hq_tw : ('"' :: (p ++ '"' :: x)).takeWhile pySpace = [] :=
    takeWhile_cons_neg _ (by decide)
  have hq_dw : ('"' :: (p ++ '"' :: x)).dropWhile pySpace
      = '"' :: (p ++ '"' :: x) :=
    dropWhile_cons_neg _ (by decide)
  have hptw : (p ++ '"' :: x).takeWhile (fun c => c != '"') = p := by
    rw [takeWhile_app_of_all _ hp, takeWhile_cons_neg _ (by decide)]
    simp
  have hpdw : (p ++ '"' :: x).dropWhile (fun c => c != '"') = '"' :: x := by
    rw [dropWhile_app_of_all _ hp, dropWhile_cons_neg _ (by decide)]
  have hpre : litPwd.isPrefixOf (litPwd ++ (w2 ++ '"' :: (p ++ '"' :: x)))
      = true :=
    List.isPrefixOf_iff_prefix.mpr (List.prefix_append _ _)
  simp only [matchPwdAt, htw, hdw, hpre, List.drop_left,
    takeWhile_app_of_all ('"' :: (p ++ '"' :: x)) hw2s,
    dropWhile_app_of_all ('"' :: (p ++ '"' :: x)) hw2s,
    hq_tw, hq_dw, List.append_nil, hptw, hpdw,
    if_pos, if_neg, ite_true, ite_false]
  simp [hw1, hw2]

/-! ### Small scanning facts -/

lemma takeWhile_cons_pos {p : Char → Bool} {c : Char} (l : List Char)
    (h : p c = true) : (c :: l).takeWhile p = c :: l.takeWhile p := by
  simp [List.takeWhile, h]

lemma dropWhile_cons_pos {p : Char → Bool} {c : Char} (l : List Char)
    (h : p c = true) : (c :: l).dropWhile p = l.dropWhile p := by
  simp [List.dropWhile, h]

lemma takeWhile_nil_iff {p : Char → Bool} {l : List Char} :
    l.takeWhile p = [] ↔ (∀ d, l.head? = some d → p d = false) := by
  cases l with
  | nil => simp
  | cons c t =>
    by_cases h : p c
    · simp [takeWhile_cons_pos _ h, h]
    · simp only [Bool.not_eq_true] at h
      simp [takeWhile_cons_neg _ h, h]

lemma scanStr_false_nil {m : List Char → Option (List Char × List Char)} :
    scanStr m false [] = [] := rfl

lemma scanStr_emit_false {m : List Char → Option (List Char × List Char)} :
    ∀ (x y : List Char), x.all (fun c => c != '\n') = true →
      scanStr m false (x ++ y) = x ++ scanStr m false y := by
  intro x
  induction x with
  | nil => simp
  | cons c t ih =>
    intro y hx
    have hc : (c == '\n') = false := by
      have := all_head hx
      simpa using this
    rw [List.cons_append, scanStr_false, hc, ih y (all_tail hx)]
    rfl

lemma scanStr_walk {m : List Char → Option (List Char × List Char)} :
    ∀ (w y : List Char) (b : Bool),
      (∀ w₁ w₂, w = w₁ ++ w₂ → w₂ ≠ [] → m (w₂ ++ y) = none) →
      scanStr m b (w ++ y) = w ++ scanStr m (stateAfter b w) y := by
  intro w
  induction w with
  | nil => intro y b _; simp [stateAfter]
  | cons c t ih =>
    intro y b hfail
    have h0 : m ((c :: t) ++ y) = none := hfail [] (c :: t) rfl (by simp)
    have hrec := ih y (c == '\n')
      (fun w₁ w₂ hw hne => hfail (c :: w₁) w₂ (by rw [hw]; rfl) hne)
    have hstate : stateAfter b (c :: t) = stateAfter (c == '\n') t := rfl
    cases b with
    | false =>
      rw [List.cons_append, scanStr_false, hrec, hstate]
      rfl
    | true =>
      rw [List.cons_append] at h0 ⊢
      rw [scanStr_none h0, hrec, hstate]
      rfl

lemma scanStr_pfx_false {m : List Char → Option (List Char × List Char)} :
    ∀ (n : Nat) (q u : List Char), u.length ≤ n → q ≠ [] →
      q.all (fun c => c != '\n') = true →
      q.isPrefixOf u = false → q.isPrefixOf (scanStr m false u) = false := by
  intro n
  induction n with
  | zero =>
    intro q u hu _ _ hpf
    have : u = [] := List.eq_nil_of_length_eq_zero (Nat.le_zero.mp hu)
    subst this
    simpa [scanStr_false_nil] using hpf
  | succ n ih =>
    intro q u hu hq hnl hpf
    cases u with
    | nil => simpa [scanStr_false_nil] using hpf
    | cons c t =>
      rw [scanStr_false]
      cases q with
      | nil => exact absurd rfl hq
      | cons q0 q' =>
        by_cases hq0 : q0 = c
        · subst hq0
          have hin : q'.isPrefixOf t = false := by
            simpa [List.isPrefixOf] using hpf
          have hq' : q' ≠ [] := by
            intro hnil
            rw [hnil] at hin
            simp [List.isPrefixOf] at hin
          have hstate : (q0 == '\n') = false := by
            have := all_head hnl
            simpa using this
          rw [hstate]
          have hout := ih q' t (by simpa [Nat.succ_le_succ_iff] using hu)
            hq' (all_tail hnl) hin
          simp [List.isPrefixOf, hout]
        · simp [List.isPrefixOf, hq0]

/-! ### Failure analysis for the host pattern -/

lemma litHost_cons : litHost = 'a' :: litHostT := rfl

lemma litPwd_cons : litPwd = 'a' :: litPwdT := rfl

lemma isPrefixOf_cons_ne {a b : Char} (l t : List Char) (h : ¬ a = b) :
    (a :: l).isPrefixOf (b :: t) = false := by
  simp [List.isPrefixOf, h]

lemma isPrefixOf_cons_same {a : Char} (l t : List Char) :
    (a :: l).isPrefixOf (a :: t) = l.isPrefixOf t := by
  simp [List.isPrefixOf]

lemma matchHostAt_nil : matchHostAt [] = none := by
  simp [matchHostAt]

lemma matchHostAt_cons_notws {c : Char} {t : List Char}
    (hc : pySpace c = false) : matchHostAt (c :: t) = none := by
  unfold matchHostAt
  rw [takeWhile_cons_neg _ hc]
  simp

lemma mHost_none {ip s : List Char} (h : matchHostAt s = none) :
    mHost ip s = none := by
  unfold mHost
  rw [h]

lemma mHost_some {ip s g v r : List Char} (h : matchHostAt s = some (g, v, r)) :
    mHost ip s = some (g ++ ip, r) := by
  unfold mHost
  rw [h]

lemma matchHostAt_cons_ws {c : Char} {t : List Char} (hc : pySpace c = true) :
    matchHostAt (c :: t) = none ↔ hostBody t = false := by
  unfold matchHostAt hostBody
  rw [takeWhile_cons_pos _ hc, dropWhile_cons_pos _ hc]
  by_cases h1 : litHost.isPrefixOf (t.dropWhile pySpace)
  · by_cases h2 : ((t.dropWhile pySpace).drop litHost.length).takeWhile pySpace = []
    · simp [h1, h2, List.isEmpty_iff]
    · by_cases h3 : (((t.dropWhile pySpace).drop
          litHost.length).dropWhile pySpace).takeWhile digitDot = []
      · simp [h1, h2, h3, List.isEmpty_iff]
      · simp [h1, h2, h3, List.isEmpty_iff]
  · simp only [Bool.not_eq_true] at h1
    simp [h1, List.isEmpty_iff]

lemma hostBody_cons_ws {c : Char} {t : List Char} (hc : pySpace c = true) :
    hostBody (c :: t) = hostBody t := by
  unfold hostBody
  rw [dropWhile_cons_pos _ hc]

lemma hostBody_false_none {u : List Char} (h : hostBody u = false) :
    matchHostAt u = none := by
  cases u with
  | nil => exact matchHostAt_nil
  | cons c t =>
    by_cases hc : pySpace c = true
    · rw [matchHostAt_cons_ws hc]
      rw [hostBody_cons_ws hc] at h
      exact h
    · exact matchHostAt_cons_notws (by simpa using hc)

lemma wsHeadOK_iff {l : List Char} :
    WsHeadOK l ↔ (l.dropWhile pySpace).takeWhile digitDot = [] := by
  unfold WsHeadOK
  exact takeWhile_nil_iff.symm

lemma beq_newline_false_of_not_pySpace {e : Char} (h : pySpace e = false) :
    (e == '\n') = false := by
  cases heq : e == '\n'
  · rfl
  · exfalso
    have : e = '\n' := by simpa using heq
    subst this
    exact absurd h (by decide)

/-! ### Scanning preserves the reasons a host match fails -/

lemma wsHeadOK_scan (ip : List Char) :
    ∀ (n : Nat) (u : List Char) (b : Bool), u.length ≤ n → WsHeadOK u →
      WsHeadOK (scanStr (mHost ip) b u) := by
  intro n
  induction n with
  | zero =>
    intro u b hu hok
    have : u = [] := List.eq_nil_of_length_eq_zero (Nat.le_zero.mp hu)
    subst this
    rw [scanStr_nil (shrinks_mHost ip)]
    exact hok
  | succ n ih =>
    intro u b hu hok
    cases u with
    | nil =>
      rw [scanStr_nil (shrinks_mHost ip)]
      exact hok
    | cons e u' =>
      have hu' : u'.length ≤ n := by simpa [Nat.succ_le_succ_iff] using hu
      by_cases hsp : pySpace e = true
      · have hok' : WsHeadOK u' := by
          intro d hd
          exact hok d (by rwa [dropWhile_cons_pos _ hsp])
        have hstep : ∀ b₂, WsHeadOK (e :: scanStr (mHost ip) b₂ u') := by
          intro b₂ d hd
          rw [dropWhile_cons_pos _ hsp] at hd
          exact ih u' b₂ hu' hok' d hd
        cases b with
        | false =>
          rw [scanStr_false]
          exact hstep _
        | true =>
          cases hm : matchHostAt (e :: u') with
          | none =>
            rw [scanStr_none (mHost_none hm)]
            exact hstep _
          | some y =>
            obtain ⟨g, v, r⟩ := y
            rw [scanStr_match (shrinks_mHost ip) (mHost_some hm)]
            obtain ⟨w1, w2, hg, _, hw1s, _, _, _, _, _, _⟩ :=
              matchHostAt_some hm
            subst hg
            intro d hd
            have hshape : (w1 ++ litHost ++ w2 ++ ip)
                ++ scanStr (mHost ip) false r
                = w1 ++ (litHost ++ (w2 ++ (ip ++ scanStr (mHost ip) false r)))
                := by simp [List.append_assoc]
            rw [hshape, dropWhile_app_of_all _ hw1s, dropWhile_litHost_app]
              at hd
            have : 'a' = d := by simpa [litHost_cons] using hd
            subst this
            decide
      · have hsp' : pySpace e = false := by simpa using hsp
        have hnl : (e == '\n') = false := beq_newline_false_of_not_pySpace hsp'
        have hstep : scanStr (mHost ip) b (e :: u')
            = e :: scanStr (mHost ip) false u' := by
          cases b with
          | false => rw [scanStr_false, hnl]
          | true =>
            rw [scanStr_none (mHost_none (matchHostAt_cons_notws hsp')), hnl]
        rw [hstep]
        intro d hd
        rw [dropWhile_cons_neg _ hsp'] at hd
        have : e = d := by simpa using hd
        subst this
        exact hok e (by rw [dropWhile_cons_neg _ hsp']; rfl)

lemma hostBody_fail_scan (ip : List Char) :
    ∀ (n : Nat) (u : List Char) (b : Bool), u.length ≤ n →
      hostBody u = false → hostBody (scanStr (mHost ip) b u) = false := by
  intro n
  induction n with
  | zero =>
    intro u b hu hbf
    have : u = [] := List.eq_nil_of_length_eq_zero (Nat.le_zero.mp hu)
    subst this
    rwa [scanStr_nil (shrinks_mHost ip)]
  | succ n ih =>
    intro u b hu hbf
    cases u with
    | nil => rwa [scanStr_nil (shrinks_mHost ip)]
    | cons e u' =>
      have hu' : u'.length ≤ n := by simpa [Nat.succ_le_succ_iff] using hu
      have hnm : matchHostAt (e :: u') = none := hostBody_false_none hbf
      by_cases hsp : pySpace e = true
      · have hstep : ∀ b, scanStr (mHost ip) b (e :: u')
            = e :: scanStr (mHost ip) (e == '\n') u' := by
          intro b
          cases b with
          | false => rw [scanStr_false]
          | true => rw [scanStr_none (mHost_none hnm)]
        rw [hstep, hostBody_cons_ws hsp]
        exact ih u' (e == '\n') hu' (by rwa [hostBody_cons_ws hsp] at hbf)
      · have hsp' : pySpace e = false := by simpa using hsp
        have hnl : (e == '\n') = false := beq_newline_false_of_not_pySpace hsp'
        have hstep : scanStr (mHost ip) b (e :: u')
            = e :: scanStr (mHost ip) false u' := by
          cases b with
          | false => rw [scanStr_false, hnl]
          | true => rw [scanStr_none (mHost_none hnm), hnl]
        rw [hstep]
        by_cases hea : e = 'a'
        · subst hea
          by_cases hT : litHostT.isPrefixOf u' = true
          · obtain ⟨rest, hrest⟩ := List.isPrefixOf_iff_prefix.mp hT
            subst hrest
            rw [scanStr_emit_false litHostT _ (by decide)]
            have hout : 'a' :: (litHostT ++ scanStr (mHost ip) false rest)
                = litHost ++ scanStr (mHost ip) false rest := by
              rw [litHost_cons]
              rfl
            have hin : 'a' :: (litHostT ++ rest) = litHost ++ rest := by
              rw [litHost_cons]
              rfl
            rw [hout]
            rw [hin] at hbf
            unfold hostBody at hbf ⊢
            rw [dropWhile_litHost_app, List.drop_left] at hbf ⊢
            rw [List.isPrefixOf_iff_prefix.mpr (List.prefix_append _ _)]
              at hbf ⊢
            simp only [Bool.true_and] at hbf ⊢
            by_cases hw2 : rest.takeWhile pySpace = []
            · have : (scanStr (mHost ip) false rest).takeWhile pySpace = [] := by
                rw [takeWhile_nil_iff] at hw2 ⊢
                intro d hd
                cases rest with
                | nil => rw [scanStr_false_nil] at hd; simp at hd
                | cons r0 rest' =>
                  rw [scanStr_false] at hd
                  have : r0 = d := by simpa using hd
                  subst this
                  exact hw2 r0 rfl
              simp [this]
            · have hvin : ((rest.dropWhile pySpace).takeWhile digitDot) = [] := by
                rcases Bool.and_eq_false_iff.mp hbf with h | h
                · exact absurd (by simpa [List.isEmpty_iff] using h) hw2
                · simpa [List.isEmpty_iff] using h
              have hok : WsHeadOK rest := wsHeadOK_iff.mpr hvin
              have hokout : WsHeadOK (scanStr (mHost ip) false rest) :=
                wsHeadOK_scan ip rest.length rest false (Nat.le_refl _) hok
              have : ((scanStr (mHost ip) false rest).dropWhile
                  pySpace).takeWhile digitDot = [] := wsHeadOK_iff.mp hokout
              simp [this]
          · have hbout : litHostT.isPrefixOf (scanStr (mHost ip) false u')
                = false :=
              scanStr_pfx_false u'.length litHostT u' (Nat.le_refl _)
                (by decide) (by decide) (Bool.eq_false_iff.mpr hT)
            unfold hostBody
            rw [dropWhile_cons_neg _ hsp', litHost_cons,
              isPrefixOf_cons_same, hbout]
            simp
        · unfold hostBody
          rw [dropWhile_cons_neg _ hsp', litHost_cons,
            isPrefixOf_cons_ne _ _ (fun h => hea h.symm)]
          simp

/-! ### Idempotence of the host substitution -/

lemma subHost_idem_aux (ip : List Char) (hip : ip ≠ [])
    (hipd : ip.all digitDot = true) :
    ∀ (n : Nat) (s : List Char) (b : Bool), s.length ≤ n →
      scanStr (mHost ip) b (scanStr (mHost ip) b s) = scanStr (mHost ip) b s := by
  intro n
  induction n with
  | zero =>
    intro s b hs
    have : s = [] := List.eq_nil_of_length_eq_zero (Nat.le_zero.mp hs)
    subst this
    rw [scanStr_nil (shrinks_mHost ip), scanStr_nil (shrinks_mHost ip)]
  | succ n ih =>
    intro s b hs
    cases s with
    | nil => rw [scanStr_nil (shrinks_mHost ip), scanStr_nil (shrinks_mHost ip)]
    | cons c t =>
      have ht : t.length ≤ n := by simpa [Nat.succ_le_succ_iff] using hs
      cases b with
      | false =>
        rw [scanStr_false, scanStr_false, ih t (c == '\n') ht]
      | true =>
        cases hm : matchHostAt (c :: t) with
        | some y =>
          obtain ⟨g, v, r⟩ := y
          obtain ⟨w1, w2, hg, hw1, hw1s, hw2, hw2s, hv, hvd, hseq, hrh⟩ :=
            matchHostAt_some hm
          subst hg
          have hr : r.length ≤ n := by
            have hlen := congrArg List.length hseq
            simp only [List.length_cons, List.length_append] at hlen
            have hw1l : 0 < w1.length := List.length_pos.mpr hw1
            omega
          rw [scanStr_match (shrinks_mHost ip) (mHost_some hm)]
          have hd : ∀ cc, (scanStr (mHost ip) false r).head? = some cc →
              digitDot cc = false := by
            cases r with
            | nil =>
              rw [scanStr_false_nil]
              intro cc hcc
              simp at hcc
            | cons r0 r' =>
              rw [scanStr_false]
              intro cc hcc
              have : r0 = cc := by simpa using hcc
              subst this
              exact hrh r0 rfl
          have hm2 := @matchHostAt_rematch _ _ _
            (scanStr (mHost ip) false r) hw1 hw1s hw2 hw2s hip hipd hd
          rw [scanStr_match (shrinks_mHost ip) (mHost_some hm2),
            ih r false hr]
        | none =>
          rw [scanStr_none (mHost_none hm)]
          have hnone2 : matchHostAt (c :: scanStr (mHost ip) (c == '\n') t)
              = none := by
            by_cases hsp : pySpace c = true
            · rw [matchHostAt_cons_ws hsp] at hm ⊢
              exact hostBody_fail_scan ip t.length t (c == '\n')
                (Nat.le_refl _) hm
            · exact matchHostAt_cons_notws (by simpa using hsp)
          rw [scanStr_none (mHost_none hnone2), ih t (c == '\n') ht]

lemma shrinks_mPwd (pwd : List Char) : Shrinks (mPwd pwd) := by
  intro s x h
  unfold mPwd at h
  cases hm : matchPwdAt s with
  | none => rw [hm] at h; simp at h
  | some y =>
    obtain ⟨g, v, r⟩ := y
    rw [hm] at h
    simp only [Option.some.injEq] at h
    obtain ⟨w1, w2, _, hw1, _, _, _, _, hs⟩ := matchPwdAt_some hm
    subst hs
    rw [← h]
    simp only [List.length_append, List.length_cons]
    have : 0 < w1.length := List.length_pos.mpr hw1
    omega

/-! ### Failure analysis for the secret pattern -/

lemma matchPwdAt_nil : matchPwdAt [] = none := by
  simp [matchPwdAt]

lemma matchPwdAt_cons_notws {c : Char} {t : List Char}
    (hc : pySpace c = false) : matchPwdAt (c :: t) = none := by
  unfold matchPwdAt
  rw [takeWhile_cons_neg _ hc]
  simp

lemma mPwd_none {pwd s : List Char} (h : matchPwdAt s = none) :
    mPwd pwd s = none := by
  unfold mPwd
  rw [h]

lemma mPwd_some {pwd s g v r : List Char}
    (h : matchPwdAt s = some (g, v, r)) :
    mPwd pwd s = some (g ++ '"' :: (pwd ++ [ '"' ]), r) := by
  unfold mPwd
  rw [h]

lemma matchHostAt_none_pfxfail {u : List Char}
    (h : litHost.isPrefixOf (u.dropWhile pySpace) = false) :
    matchHostAt u = none := by
  simp [matchHostAt, h]

lemma matchPwdAt_none_pfxfail {u : List Char}
    (h : litPwd.isPrefixOf (u.dropWhile pySpace) = false) :
    matchPwdAt u = none := by
  simp [matchPwdAt, h]

lemma litHost_not_pfx_app_litPwd (z : List Char) :
    litHost.isPrefixOf (litPwd ++ z) = false := by
  cases hb : litHost.isPrefixOf (litPwd ++ z)
  · rfl
  · exfalso
    obtain ⟨t2, ht2⟩ := List.isPrefixOf_iff_prefix.mp hb
    have h13 : (litHost ++ t2).take 13 = (litPwd ++ z).take 13 := by rw [ht2]
    rw [List.take_append_of_le_length (by decide),
      List.take_append_of_le_length (by decide)] at h13
    exact absurd h13 (by decide)

lemma litPwd_not_pfx_app_litHost (z : List Char) :
    litPwd.isPrefixOf (litHost ++ z) = false := by
  cases hb : litPwd.isPrefixOf (litHost ++ z)
  · rfl
  · exfalso
    obtain ⟨t2, ht2⟩ := List.isPrefixOf_iff_prefix.mp hb
    have h13 : (litPwd ++ t2).take 13 = (litHost ++ z).take 13 := by rw [ht2]
    rw [List.take_append_of_le_length (by decide),
      List.take_append_of_le_length (by decide)] at h13
    exact absurd h13 (by decide)

lemma matchPwdAt_cons_ws {c : Char} {t : List Char} (hc : pySpace c = true) :
    matchPwdAt (c :: t) = none ↔ pwdBody t = false := by
  unfold matchPwdAt pwdBody
  rw [takeWhile_cons_pos _ hc, dropWhile_cons_pos _ hc]
  by_cases h1 : litPwd.isPrefixOf (t.dropWhile pySpace)
  · by_cases h2 :
      ((t.dropWhile pySpace).drop litPwd.length).takeWhile pySpace = []
    · simp [h1, h2, List.isEmpty_iff]
    · rcases hm3 : ((t.dropWhile pySpace).drop litPwd.length).dropWhile pySpace
        with _ | ⟨c0, r4⟩
      · simp [h1, h2, hm3, List.isEmpty_iff]
      · by_cases hq : c0 = '"'
        · subst hq
          rcases hm5 : r4.dropWhile (fun x => x != '"') with _ | ⟨c1, r6⟩
          · simp [h1, h2, hm3, hm5, List.isEmpty_iff]
          · have hc1 : c1 = '"' := by
              have := head_of_dropWhile (fun x => x != '"') r4 c1
                (by rw [hm5]; rfl)
              simpa using this
            subst hc1
            simp [h1, h2, hm3, hm5, List.isEmpty_iff]
        · simp [h1, h2, hm3, hq, List.isEmpty_iff]
  · simp only [Bool.not_eq_true] at h1
    simp [h1, List.isEmpty_iff]

lemma pwdBody_cons_ws {c : Char} {t : List Char} (hc : pySpace c = true) :
    pwdBody (c :: t) = pwdBody t := by
  unfold pwdBody
  rw [dropWhile_cons_pos _ hc]

lemma pwdBody_false_none {u : List Char} (h : pwdBody u = false) :
    matchPwdAt u = none := by
  cases u with
  | nil => exact matchPwdAt_nil
  | cons c t =>
    by_cases hc : pySpace c = true
    · rw [matchPwdAt_cons_ws hc]
      rw [pwdBody_cons_ws hc] at h
      exact h
    · exact matchPwdAt_cons_notws (by simpa using hc)

/-! ### Quote counting -/

lemma count_zero_of_all_ne {l : List Char}
    (h : l.all (fun c => c != '"') = true) : l.count '"' = 0 := by
  rw [List.count_eq_zero]
  intro hmem
  have := List.all_eq_true.mp h _ hmem
  simp at this

lemma all_ne_quote_of_all_ws {l : List Char} (h : l.all pySpace = true) :
    l.all (fun c => c != '"') = true := by
  rw [List.all_eq_true] at h ⊢
  intro c hc
  have hs := h c hc
  have hne : ¬ c = '"' := by
    intro heq
    subst heq
    exact absurd hs (by decide)
  simpa using hne

lemma matchPwdAt_two_quotes {s g v r : List Char}
    (h : matchPwdAt s = some (g, v, r)) : 2 ≤ s.count '"' := by
  obtain ⟨w1, w2, hg, _, _, _, _, _, hs⟩ := matchPwdAt_some h
  subst hs
  simp only [List.count_append, List.count_cons]
  simp
  omega

lemma scan_noquote (pwd : List Char) :
    ∀ (n : Nat) (u : List Char) (b : Bool), u.length ≤ n →
      u.count '"' ≤ 1 → scanStr (mPwd pwd) b u = u := by
  intro n
  induction n with
  | zero =>
    intro u b hu _
    have : u = [] := List.eq_nil_of_length_eq_zero (Nat.le_zero.mp hu)
    subst this
    exact scanStr_nil (shrinks_mPwd pwd) b
  | succ n ih =>
    intro u b hu hcnt
    cases u with
    | nil => exact scanStr_nil (shrinks_mPwd pwd) b
    | cons c t =>
      have ht : t.length ≤ n := by simpa [Nat.succ_le_succ_iff] using hu
      have htc : t.count '"' ≤ 1 := by
        have : (c :: t).count '"' = t.count '"' + if c == '"' then 1 else 0 := by
          simp [List.count_cons]
        omega
      have hnm : matchPwdAt (c :: t) = none := by
        cases hm : matchPwdAt (c :: t) with
        | none => rfl
        | some y =>
          obtain ⟨g, v, r⟩ := y
          exact absurd hcnt (by
            have := matchPwdAt_two_quotes hm
            omega)
      have hstep : scanStr (mPwd pwd) b (c :: t)
          = c :: scanStr (mPwd pwd) (c == '\n') t := by
        cases b with
        | false => rw [scanStr_false]
        | true => rw [scanStr_none (mPwd_none hnm)]
      rw [hstep, ih t (c == '\n') ht htc]

/-! ### Head preservation after leading whitespace, under the secret scan -/

lemma wsHead_pred_pwd_scan (pwd : List Char) (pr : Char → Bool)
    (ha : pr 'a' = false) :
    ∀ (n : Nat) (u : List Char) (b : Bool), u.length ≤ n →
      (∀ d, (u.dropWhile pySpace).head? = some d → pr d = false) →
      (∀ d, ((scanStr (mPwd pwd) b u).dropWhile pySpace).head? = some d →
        pr d = false) := by
  intro n
  induction n with
  | zero =>
    intro u b hu hok
    have : u = [] := List.eq_nil_of_length_eq_zero (Nat.le_zero.mp hu)
    subst this
    rw [scanStr_nil (shrinks_mPwd pwd)]
    exact hok
  | succ n ih =>
    intro u b hu hok
    cases u with
    | nil =>
      rw [scanStr_nil (shrinks_mPwd pwd)]
      exact hok
    | cons e u' =>
      have hu' : u'.length ≤ n := by simpa [Nat.succ_le_succ_iff] using hu
      by_cases hsp : pySpace e = true
      · have hok' : ∀ d, (u'.dropWhile pySpace).head? = some d → pr d = false := by
          intro d hd
          exact hok d (by rwa [dropWhile_cons_pos _ hsp])
        have hstep : ∀ b₂ d,
            ((e :: scanStr (mPwd pwd) b₂ u').dropWhile pySpace).head? = some d →
            pr d = false := by
          intro b₂ d hd
          rw [dropWhile_cons_pos _ hsp] at hd
          exact ih u' b₂ hu' hok' d hd
        cases b with
        | false =>
          rw [scanStr_false]
          exact hstep _
        | true =>
          cases hm : matchPwdAt (e :: u') with
          | none =>
            rw [scanStr_none (mPwd_none hm)]
            exact hstep _
          | some y =>
            obtain ⟨g, v, r⟩ := y
            rw [scanStr_match (shrinks_mPwd pwd) (mPwd_some hm)]
            obtain ⟨w1, w2, hg, _, hw1s, _, _, _, _⟩ := matchPwdAt_some hm
            subst hg
            intro d hd
            have hshape : ((w1 ++ litPwd ++ w2) ++ '"' :: (pwd ++ [ '"' ]))
                ++ scanStr (mPwd pwd) false r
                = w1 ++ (litPwd ++ (w2 ++ '"' :: (pwd ++ [ '"' ]
                    ++ scanStr (mPwd pwd) false r))) := by
              simp [List.append_assoc]
            rw [hshape, dropWhile_app_of_all _ hw1s, dropWhile_litPwd_app]
              at hd
            have : 'a' = d := by simpa [litPwd_cons] using hd
            subst this
            exact ha
      · have hsp' : pySpace e = false := by simpa using hsp
        have hnl : (e == '\n') = false := beq_newline_false_of_not_pySpace hsp'
        have hstep : scanStr (mPwd pwd) b (e :: u')
            = e :: scanStr (mPwd pwd) false u' := by
          cases b with
          | false => rw [scanStr_false, hnl]
          | true =>
            rw [scanStr_none (mPwd_none (matchPwdAt_cons_notws hsp')), hnl]
        rw [hstep]
        intro d hd
        rw [dropWhile_cons_neg _ hsp'] at hd
        have : e = d := by simpa using hd
        subst this
        exact hok e (by rw [dropWhile_cons_neg _ hsp']; rfl)

/-! ### Scanning preserves the reasons a secret match fails -/

lemma dropWhile_nil_all {p : Char → Bool} {l : List Char}
    (h : l.dropWhile p = []) : l.all p = true := by
  induction l with
  | nil => simp
  | cons c t ih =>
    by_cases hc : p c
    · rw [dropWhile_cons_pos _ hc] at h
      simp [hc, ih h]
    · simp only [Bool.not_eq_true] at hc
      rw [dropWhile_cons_neg _ hc] at h
      simp at h

lemma pwdBody_fail_scan (pwd : List Char) :
    ∀ (n : Nat) (u : List Char) (b : Bool), u.length ≤ n →
      pwdBody u = false → pwdBody (scanStr (mPwd pwd) b u) = false := by
  intro n
  induction n with
  | zero =>
    intro u b hu hbf
    have : u = [] := List.eq_nil_of_length_eq_zero (Nat.le_zero.mp hu)
    subst this
    rwa [scanStr_nil (shrinks_mPwd pwd)]
  | succ n ih =>
    intro u b hu hbf
    by_cases hcnt : u.count '"' ≤ 1
    · rwa [scan_noquote pwd u.length u b (Nat.le_refl _) hcnt]
    · cases u with
      | nil => rwa [scanStr_nil (shrinks_mPwd pwd)]
      | cons e u' =>
        have hu' : u'.length ≤ n := by simpa [Nat.succ_le_succ_iff] using hu
        have hnm : matchPwdAt (e :: u') = none := pwdBody_false_none hbf
        by_cases hsp : pySpace e = true
        · have hstep : ∀ b, scanStr (mPwd pwd) b (e :: u')
              = e :: scanStr (mPwd pwd) (e == '\n') u' := by
            intro b
            cases b with
            | false => rw [scanStr_false]
            | true => rw [scanStr_none (mPwd_none hnm)]
          rw [hstep, pwdBody_cons_ws hsp]
          exact ih u' (e == '\n') hu' (by rwa [pwdBody_cons_ws hsp] at hbf)
        · have hsp' : pySpace e = false := by simpa using hsp
          have hnl : (e == '\n') = false := beq_newline_false_of_not_pySpace hsp'
          have hstep : scanStr (mPwd pwd) b (e :: u')
              = e :: scanStr (mPwd pwd) false u' := by
            cases b with
            | false => rw [scanStr_false, hnl]
            | true => rw [scanStr_none (mPwd_none hnm), hnl]
          rw [hstep]
          by_cases hea : e = 'a'
          · subst hea
            by_cases hT : litPwdT.isPrefixOf u' = true
            · obtain ⟨rest, hrest⟩ := List.isPrefixOf_iff_prefix.mp hT
              subst hrest
              rw [scanStr_emit_false litPwdT _ (by decide)]
              have hout : 'a' :: (litPwdT ++ scanStr (mPwd pwd) false rest)
                  = litPwd ++ scanStr (mPwd pwd) false rest := by
                rw [litPwd_cons]
                rfl
              have hin : 'a' :: (litPwdT ++ rest) = litPwd ++ rest := by
                rw [litPwd_cons]
                rfl
              rw [hout]
              rw [hin] at hbf hcnt
              unfold pwdBody at hbf ⊢
              rw [dropWhile_litPwd_app, List.drop_left] at hbf ⊢
              rw [List.isPrefixOf_iff_prefix.mpr (List.prefix_append _ _)]
                at hbf ⊢
              simp only [Bool.true_and] at hbf ⊢
              by_cases hw2 : rest.takeWhile pySpace = []
              · have hA' : (scanStr (mPwd pwd) false rest).takeWhile pySpace
                    = [] := by
                  rw [takeWhile_nil_iff] at hw2 ⊢
                  intro d hd
                  cases rest with
                  | nil => rw [scanStr_false_nil] at hd; simp at hd
                  | cons r0 rest' =>
                    rw [scanStr_false] at hd
                    have : r0 = d := by simpa using hd
                    subst this
                    exact hw2 r0 rfl
                simp [hA']
              · cases hB : (rest.dropWhile pySpace).head? == some '"' with
                | false =>
                  have hok : ∀ d, (rest.dropWhile pySpace).head? = some d →
                      (d == '"') = false := by
                    intro d hd
                    rw [hd] at hB
                    simpa using hB
                  have hout2 := wsHead_pred_pwd_scan pwd (fun c => c == '"')
                    (by decide) rest.length rest false (Nat.le_refl _) hok
                  have hB' : (((scanStr (mPwd pwd) false
                      rest).dropWhile pySpace).head? == some '"') = false := by
                    cases hh : ((scanStr (mPwd pwd) false
                        rest).dropWhile pySpace).head? with
                    | none => simp
                    | some d =>
                      have := hout2 d hh
                      simpa using this
                  simp [hB']
                | true =>
                  exfalso
                  rcases hh : (rest.dropWhile pySpace).head? with _ | d
                  · rw [hh] at hB; simp at hB
                  · rw [hh] at hB
                    have hdq : d = '"' := by simpa using hB
                    subst hdq
                    obtain ⟨R4, hR4⟩ : ∃ R4,
                        rest.dropWhile pySpace = '"' :: R4 := by
                      cases hr : rest.dropWhile pySpace with
                      | nil => rw [hr] at hh; simp at hh
                      | cons x xs =>
                        rw [hr] at hh
                        have : x = '"' := by simpa using hh
                        subst this
                        exact ⟨xs, rfl⟩
                    have hC : R4.dropWhile (fun c => c != '"') = [] := by
                      rw [hR4] at hbf
                      simp only [List.tail_cons] at hbf
                      rcases Bool.and_eq_false_iff.mp hbf with h | h
                      · rcases Bool.and_eq_false_iff.mp h with h2 | h2
                        · exact absurd (by simpa [List.isEmpty_iff] using h2) hw2
                        · simp at h2
                      · simpa [List.isEmpty_iff] using h
                    have hR4all : R4.all (fun c => c != '"') = true :=
                      dropWhile_nil_all hC
                    apply hcnt
                    have hsplit : rest
                        = rest.takeWhile pySpace ++ ('"' :: R4) := by
                      rw [← hR4]
                      exact (takeWhile_app_dropWhile pySpace rest).symm
                    have hcount : rest.count '"' = 1 := by
                      rw [hsplit]
                      simp only [List.count_append, List.count_cons]
                      rw [count_zero_of_all_ne
                        (all_ne_quote_of_all_ws (all_takeWhile pySpace rest)),
                        count_zero_of_all_ne hR4all]
                      simp
                    have : (litPwd ++ rest).count '"' = 1 := by
                      simp only [List.count_append, hcount]
                      rw [count_zero_of_all_ne (by decide)]
                    omega
            · have hbout : litPwdT.isPrefixOf (scanStr (mPwd pwd) false u')
                  = false :=
                scanStr_pfx_false u'.length litPwdT u' (Nat.le_refl _)
                  (by decide) (by decide) (Bool.eq_false_iff.mpr hT)
              unfold pwdBody
              rw [dropWhile_cons_neg _ hsp', litPwd_cons,
                isPrefixOf_cons_same, hbout]
              simp
          · unfold pwdBody
            rw [dropWhile_cons_neg _ hsp', litPwd_cons,
              isPrefixOf_cons_ne _ _ (fun h => hea h.symm)]
            simp

/-! ### Idempotence of the secret substitution -/

lemma subPwd_idem_aux (pwd : List Char)
    (hp : pwd.all (fun c => c != '"') = true) :
    ∀ (n : Nat) (s : List Char) (b : Bool), s.length ≤ n →
      scanStr (mPwd pwd) b (scanStr (mPwd pwd) b s) = scanStr (mPwd pwd) b s := by
  intro n
  induction n with
  | zero =>
    intro s b hs
    have : s = [] := List.eq_nil_of_length_eq_zero (Nat.le_zero.mp hs)
    subst this
    rw [scanStr_nil (shrinks_mPwd pwd), scanStr_nil (shrinks_mPwd pwd)]
  | succ n ih =>
    intro s b hs
    cases s with
    | nil => rw [scanStr_nil (shrinks_mPwd pwd), scanStr_nil (shrinks_mPwd pwd)]
    | cons c t =>
      have ht : t.length ≤ n := by simpa [Nat.succ_le_succ_iff] using hs
      cases b with
      | false =>
        rw [scanStr_false, scanStr_false, ih t (c == '\n') ht]
      | true =>
        cases hm : matchPwdAt (c :: t) with
        | some y =>
          obtain ⟨g, v, r⟩ := y
          obtain ⟨w1, w2, hg, hw1, hw1s, hw2, hw2s, hv, hseq⟩ :=
            matchPwdAt_some hm
          subst hg
          have hr : r.length ≤ n := by
            have hlen := congrArg List.length hseq
            simp only [List.length_cons, List.length_append] at hlen
            have hw1l : 0 < w1.length := List.length_pos.mpr hw1
            omega
          rw [scanStr_match (shrinks_mPwd pwd) (mPwd_some hm)]
          have hshape : ((w1 ++ litPwd ++ w2) ++ '"' :: (pwd ++ [ '"' ]))
              ++ scanStr (mPwd pwd) false r
              = (w1 ++ litPwd ++ w2)
                ++ '"' :: (pwd ++ '"' :: scanStr (mPwd pwd) false r) := by
            simp
          rw [hshape]
          have hm2 := @matchPwdAt_rematch _ _ _
            (scanStr (mPwd pwd) false r) hw1 hw1s hw2 hw2s hp
          rw [scanStr_match (shrinks_mPwd pwd) (mPwd_some hm2),
            ih r false hr]
          exact hshape
        | none =>
          rw [scanStr_none (mPwd_none hm)]
          have hnone2 : matchPwdAt (c :: scanStr (mPwd pwd) (c == '\n') t)
              = none := by
            by_cases hsp : pySpace c = true
            · rw [matchPwdAt_cons_ws hsp] at hm ⊢
              exact pwdBody_fail_scan pwd t.length t (c == '\n')
                (Nat.le_refl _) hm
            · exact matchPwdAt_cons_notws (by simpa using hsp)
          rw [scanStr_none (mPwd_none hnone2), ih t (c == '\n') ht]

/-! ### hostClean: strings on which the host substitution is the identity -/

lemma matchHostAt_shrink {s g v r : List Char}
    (h : matchHostAt s = some (g, v, r)) : r.length < s.length := by
  obtain ⟨w1, w2, hg, hw1, _, _, _, hv, _, hs, _⟩ := matchHostAt_some h
  subst hs
  subst hg
  simp only [List.length_append]
  have hv' : 0 < v.length := List.length_pos.mpr hv
  omega

lemma hostCleanFuel_congr (ip : List Char) :
    ∀ (n f₁ f₂ : Nat) (b : Bool) (s : List Char), s.length ≤ n →
      s.length < f₁ → s.length < f₂ →
      hostCleanFuel ip f₁ b s = hostCleanFuel ip f₂ b s := by
  intro n
  induction n with
  | zero =>
    intro f₁ f₂ b s hs h1 h2
    have hnil : s = [] := List.eq_nil_of_length_eq_zero (Nat.le_zero.mp hs)
    subst hnil
    match f₁, h1 with
    | f₁ + 1, _ =>
      match f₂, h2 with
      | f₂ + 1, _ =>
        cases b <;> simp [hostCleanFuel, matchHostAt_nil]
  | succ n ih =>
    intro f₁ f₂ b s hs h1 h2
    match f₁, h1 with
    | f₁ + 1, h1 =>
      match f₂, h2 with
      | f₂ + 1, h2 =>
        cases b with
        | false =>
          cases s with
          | nil => simp [hostCleanFuel]
          | cons c t =>
            have ht : t.length ≤ n := by
              simpa [Nat.succ_le_succ_iff] using hs
            have e1 : hostCleanFuel ip (f₁ + 1) false (c :: t)
                = hostCleanFuel ip f₁ (c == '\n') t := rfl
            have e2 : hostCleanFuel ip (f₂ + 1) false (c :: t)
                = hostCleanFuel ip f₂ (c == '\n') t := rfl
            rw [e1, e2, ih f₁ f₂ (c == '\n') t ht
              (Nat.lt_of_succ_lt_succ h1) (Nat.lt_of_succ_lt_succ h2)]
        | true =>
          cases hm : matchHostAt s with
          | some y =>
            obtain ⟨g, v, r⟩ := y
            have hlt : r.length < s.length := matchHostAt_shrink hm
            have e1 : hostCleanFuel ip (f₁ + 1) true s
                = ((v == ip) && hostCleanFuel ip f₁ false r) := by
              simp [hostCleanFuel, hm]
            have e2 : hostCleanFuel ip (f₂ + 1) true s
                = ((v == ip) && hostCleanFuel ip f₂ false r) := by
              simp [hostCleanFuel, hm]
            rw [e1, e2, ih f₁ f₂ false r (by omega) (by omega) (by omega)]
          | none =>
            cases s with
            | nil => simp [hostCleanFuel, hm]
            | cons c t =>
              have ht : t.length ≤ n := by
                simpa [Nat.succ_le_succ_iff] using hs
              have e1 : hostCleanFuel ip (f₁ + 1) true (c :: t)
                  = hostCleanFuel ip f₁ (c == '\n') t := by
                simp [hostCleanFuel, hm]
              have e2 : hostCleanFuel ip (f₂ + 1) true (c :: t)
                  = hostCleanFuel ip f₂ (c == '\n') t := by
                simp [hostCleanFuel, hm]
              rw [e1, e2, ih f₁ f₂ (c == '\n') t ht
                (Nat.lt_of_succ_lt_succ h1) (Nat.lt_of_succ_lt_succ h2)]

lemma hostClean_nil (ip : List Char) (b : Bool) : hostClean ip b [] = true := by
  cases b <;> simp [hostClean, hostCleanFuel, matchHostAt_nil]

lemma hostClean_match {ip s g v r : List Char}
    (h : matchHostAt s = some (g, v, r)) :
    hostClean ip true s = ((v == ip) && hostClean ip false r) := by
  have hlt : r.length < s.length := matchHostAt_shrink h
  have h1 : hostClean ip true s
      = ((v == ip) && hostCleanFuel ip s.length false r) := by
    simp [hostClean, hostCleanFuel, h]
  rw [h1, hostCleanFuel_congr ip r.length s.length (r.length + 1) false r
    (Nat.le_refl _) hlt (Nat.lt_succ_self _)]
  rfl

lemma hostClean_none {ip : List Char} {c : Char} {t : List Char}
    (h : matchHostAt (c :: t) = none) :
    hostClean ip true (c :: t) = hostClean ip (c == '\n') t := by
  simp [hostClean, hostCleanFuel, h]

lemma hostClean_false (ip : List Char) (c : Char) (t : List Char) :
    hostClean ip false (c :: t) = hostClean ip (c == '\n') t := rfl

lemma hostClean_step_nonws {ip : List Char} {e : Char} {z : List Char}
    (b : Bool) (he : pySpace e = false) :
    hostClean ip b (e :: z) = hostClean ip false z := by
  have hnl : (e == '\n') = false := beq_newline_false_of_not_pySpace he
  cases b with
  | false => rw [hostClean_false, hnl]
  | true => rw [hostClean_none (matchHostAt_cons_notws he), hnl]

lemma hostClean_emit_false {ip : List Char} :
    ∀ (x y : List Char), x.all (fun c => c != '\n') = true →
      hostClean ip false (x ++ y) = hostClean ip false y := by
  intro x
  induction x with
  | nil => simp
  | cons c t ih =>
    intro y hx
    have hc : (c == '\n') = false := by
      have := all_head hx
      simpa using this
    rw [List.cons_append, hostClean_false, hc, ih y (all_tail hx)]

lemma hostClean_walk {ip : List Char} :
    ∀ (w y : List Char) (b : Bool),
      (∀ w₁ w₂, w = w₁ ++ w₂ → w₂ ≠ [] → matchHostAt (w₂ ++ y) = none) →
      hostClean ip b (w ++ y) = hostClean ip (stateAfter b w) y := by
  intro w
  induction w with
  | nil => intro y b _; simp [stateAfter]
  | cons c t ih =>
    intro y b hfail
    have h0 : matchHostAt ((c :: t) ++ y) = none :=
      hfail [] (c :: t) rfl (by simp)
    have hrec := ih y (c == '\n')
      (fun w₁ w₂ hw hne => hfail (c :: w₁) w₂ (by rw [hw]; rfl) hne)
    have hstate : stateAfter b (c :: t) = stateAfter (c == '\n') t := rfl
    cases b with
    | false =>
      rw [List.cons_append, hostClean_false, hrec, hstate]
    | true =>
      rw [List.cons_append] at h0 ⊢
      rw [hostClean_none h0, hrec, hstate]

lemma hostClean_of_scan (ip : List Char) (hip : ip ≠ [])
    (hipd : ip.all digitDot = true) :
    ∀ (n : Nat) (s : List Char) (b : Bool), s.length ≤ n →
      hostClean ip b (scanStr (mHost ip) b s) = true := by
  intro n
  induction n with
  | zero =>
    intro s b hs
    have : s = [] := List.eq_nil_of_length_eq_zero (Nat.le_zero.mp hs)
    subst this
    rw [scanStr_nil (shrinks_mHost ip), hostClean_nil]
  | succ n ih =>
    intro s b hs
    cases s with
    | nil => rw [scanStr_nil (shrinks_mHost ip), hostClean_nil]
    | cons c t =>
      have ht : t.length ≤ n := by simpa [Nat.succ_le_succ_iff] using hs
      cases b with
      | false =>
        rw [scanStr_false, hostClean_false]
        exact ih t (c == '\n') ht
      | true =>
        cases hm : matchHostAt (c :: t) with
        | some y =>
          obtain ⟨g, v, r⟩ := y
          obtain ⟨w1, w2, hg, hw1, hw1s, hw2, hw2s, hv, hvd, hseq, hrh⟩ :=
            matchHostAt_some hm
          subst hg
          have hr : r.length ≤ n := by
            have hlen := congrArg List.length hseq
            simp only [List.length_cons, List.length_append] at hlen
            have hw1l : 0 < w1.length := List.length_pos.mpr hw1
            omega
          rw [scanStr_match (shrinks_mHost ip) (mHost_some hm)]
          have hd : ∀ cc, (scanStr (mHost ip) false r).head? = some cc →
              digitDot cc = false := by
            cases r with
            | nil =>
              rw [scanStr_false_nil]
              intro cc hcc
              simp at hcc
            | cons r0 r' =>
              rw [scanStr_false]
              intro cc hcc
              have : r0 = cc := by simpa using hcc
              subst this
              exact hrh r0 rfl
          have hm2 := @matchHostAt_rematch _ _ _
            (scanStr (mHost ip) false r) hw1 hw1s hw2 hw2s hip hipd hd
          rw [hostClean_match hm2]
          simp only [beq_self_eq_true, Bool.true_and]
          exact ih r false hr
        | none =>
          rw [scanStr_none (mHost_none hm)]
          have hnone2 : matchHostAt (c :: scanStr (mHost ip) (c == '\n') t)
              = none := by
            by_cases hsp : pySpace c = true
            · rw [matchHostAt_cons_ws hsp] at hm ⊢
              exact hostBody_fail_scan ip t.length t (c == '\n')
                (Nat.le_refl _) hm
            · exact matchHostAt_cons_notws (by simpa using hsp)
          rw [hostClean_none hnone2]
          exact ih t (c == '\n') ht

lemma hostClean_eq_self (ip : List Char) :
    ∀ (n : Nat) (s : List Char) (b : Bool), s.length ≤ n →
      hostClean ip b s = true → scanStr (mHost ip) b s = s := by
  intro n
  induction n with
  | zero =>
    intro s b hs _
    have : s = [] := List.eq_nil_of_length_eq_zero (Nat.le_zero.mp hs)
    subst this
    exact scanStr_nil (shrinks_mHost ip) b
  | succ n ih =>
    intro s b hs hcl
    cases s with
    | nil => exact scanStr_nil (shrinks_mHost ip) b
    | cons c t =>
      have ht : t.length ≤ n := by simpa [Nat.succ_le_succ_iff] using hs
      cases b with
      | false =>
        rw [scanStr_false, ih t (c == '\n') ht (by rwa [hostClean_false] at hcl)]
      | true =>
        cases hm : matchHostAt (c :: t) with
        | some y =>
          obtain ⟨g, v, r⟩ := y
          rw [hostClean_match hm] at hcl
          obtain ⟨hvip, hclr⟩ := Bool.and_eq_true_iff.mp hcl
          have hvip' : v = ip := by simpa using hvip
          obtain ⟨_, _, _, hw1, _, _, _, _, _, hseq, _⟩ := matchHostAt_some hm
          have hr : r.length ≤ n := by
            have := matchHostAt_shrink hm
            simp only [List.length_cons] at this
            omega
          rw [scanStr_match (shrinks_mHost ip) (mHost_some hm),
            ih r false hr hclr, ← hvip', hseq]
        | none =>
          rw [scanStr_none (mHost_none hm),
            ih t (c == '\n') ht (by rwa [hostClean_none hm] at hcl)]

/-! ### Character-class bridges and walk instantiations -/

lemma digitDot_ne_quote {c : Char} (h : digitDot c = true) : (c != '"') = true := by
  have : ¬ c = '"' := by
    intro heq
    subst heq
    exact absurd h (by decide)
  simpa using this

lemma digitDot_ne_a {c : Char} (h : digitDot c = true) : ¬ c = 'a' := by
  intro heq
  subst heq
  exact absurd h (by decide)

lemma digitDot_ne_nl {c : Char} (h : digitDot c = true) : (c != '\n') = true := by
  have : ¬ c = '\n' := by
    intro heq
    subst heq
    exact absurd h (by decide)
  simpa using this

lemma all_mono {α : Type} {p q : α → Bool} {l : List α}
    (hpq : ∀ c, p c = true → q c = true) (h : l.all p = true) :
    l.all q = true := by
  rw [List.all_eq_true] at h ⊢
  exact fun c hc => hpq c (h c hc)

lemma ws_ne_quote {c : Char} (h : pySpace c = true) : (c != '"') = true := by
  have : ¬ c = '"' := by
    intro heq
    subst heq
    exact absurd h (by decide)
  simpa using this

lemma stateAfter_false_of_no_nl :
    ∀ (w : List Char) (b : Bool), w.all (fun c => c != '\n') = true →
      w ≠ [] → stateAfter b w = false := by
  intro w
  induction w with
  | nil => intro b _ h; exact absurd rfl h
  | cons c t ih =>
    intro b hw _
    have hstep : stateAfter b (c :: t) = stateAfter (c == '\n') t := rfl
    rw [hstep]
    cases t with
    | nil =>
      have := all_head hw
      simpa [stateAfter] using this
    | cons d t' => exact ih (c == '\n') (all_tail hw) (by simp)

lemma scanStr_walk_nonws {m : List Char → Option (List Char × List Char)}
    (hm0 : ∀ (d : Char) (z : List Char), pySpace d = false → m (d :: z) = none)
    (w y : List Char) (b : Bool)
    (hw : w.all (fun c => !(pySpace c)) = true) :
    scanStr m b (w ++ y) = w ++ scanStr m (stateAfter b w) y := by
  refine scanStr_walk w y b ?_
  intro w₁ w₂ hsplit hne
  cases w₂ with
  | nil => exact absurd rfl hne
  | cons d w₂' =>
    have hmem : d ∈ w := by rw [hsplit]; simp
    have hd : pySpace d = false := by
      have := List.all_eq_true.mp hw d hmem
      simpa using this
    exact hm0 d _ hd

lemma hostClean_walk_nonws {ip : List Char} (w y : List Char) (b : Bool)
    (hw : w.all (fun c => !(pySpace c)) = true) :
    hostClean ip b (w ++ y) = hostClean ip (stateAfter b w) y := by
  refine hostClean_walk w y b ?_
  intro w₁ w₂ hsplit hne
  cases w₂ with
  | nil => exact absurd rfl hne
  | cons d w₂' =>
    have hmem : d ∈ w := by rw [hsplit]; simp
    have hd : pySpace d = false := by
      have := List.all_eq_true.mp hw d hmem
      simpa using this
    exact matchHostAt_cons_notws hd

lemma mPwd_nonws (pwd : List Char) :
    ∀ (d : Char) (z : List Char), pySpace d = false →
      mPwd pwd (d :: z) = none :=
  fun d z hd => mPwd_none (matchPwdAt_cons_notws hd)

/-! ### Extracting cleanliness across a quote-free region -/

lemma matchHostAt_span_noquote {s g v r : List Char}
    (h : matchHostAt s = some (g, v, r)) :
    (g ++ v).all (fun c => c != '"') = true := by
  obtain ⟨w1, w2, hg, _, hw1s, _, hw2s, _, hvd, _, _⟩ := matchHostAt_some h
  subst hg
  simp only [List.all_append, Bool.and_eq_true]
  refine ⟨⟨⟨all_ne_quote_of_all_ws hw1s, by decide⟩,
    all_ne_quote_of_all_ws hw2s⟩, ?_⟩
  exact all_mono (fun c hc => digitDot_ne_quote hc) hvd

lemma hostClean_ext (ip : List Char) :
    ∀ (n : Nat) (v r : List Char) (b : Bool), v.length ≤ n →
      v.all (fun c => c != '"') = true →
      hostClean ip b (v ++ '"' :: r) = true → hostClean ip false r = true := by
  intro n
  induction n with
  | zero =>
    intro v r b hv _ hcl
    have : v = [] := List.eq_nil_of_length_eq_zero (Nat.le_zero.mp hv)
    subst this
    rwa [List.nil_append, hostClean_step_nonws b (by decide)] at hcl
  | succ n ih =>
    intro v r b hv hvq hcl
    cases v with
    | nil =>
      rwa [List.nil_append, hostClean_step_nonws b (by decide)] at hcl
    | cons c v' =>
      have hv' : v'.length ≤ n := by simpa [Nat.succ_le_succ_iff] using hv
      cases b with
      | false =>
        rw [List.cons_append, hostClean_false] at hcl
        exact ih v' r (c == '\n') hv' (all_tail hvq) hcl
      | true =>
        cases hm : matchHostAt ((c :: v') ++ '"' :: r) with
        | none =>
          rw [List.cons_append, hostClean_none (by rwa [List.cons_append] at hm)]
            at hcl
          exact ih v' r (c == '\n') hv' (all_tail hvq) hcl
        | some y =>
          obtain ⟨g, vv, rr⟩ := y
          have hclrr : hostClean ip false rr = true := by
            rw [hostClean_match hm] at hcl
            exact (Bool.and_eq_true_iff.mp hcl).2
          have hspan : (g ++ vv).all (fun c => c != '"') = true :=
            matchHostAt_span_noquote hm
          obtain ⟨_, _, hg, hw1g, _, _, _, _, _, hseq, _⟩ := matchHostAt_some hm
          have hgseq : (c :: v') ++ '"' :: r = (g ++ vv) ++ rr := hseq
          rcases List.append_eq_append_iff.mp hgseq with ⟨a2, ha2, hrr2⟩
            | ⟨a2, ha2, hrr2⟩
          · -- g ++ vv = (c :: v') ++ a2 and '"' :: r = a2 ++ rr
            cases a2 with
            | nil =>
              simp only [List.append_nil] at ha2
              simp only [List.nil_append] at hrr2
              rw [← hrr2, hostClean_false] at hclrr
              have : ('"' == '\n') = false := by decide
              rwa [this] at hclrr
            | cons d a2' =>
              exfalso
              have hdq : '"' = d := by
                have := congrArg List.head? hrr2
                simpa using this
              subst hdq
              have hmem : '"' ∈ g ++ vv := by
                rw [ha2]
                simp
              have := List.all_eq_true.mp hspan _ hmem
              simp at this
          · -- c :: v' = (g ++ vv) ++ a2 and rr = a2 ++ '"' :: r
            have ha2q : a2.all (fun c => c != '"') = true := by
              have : ((g ++ vv) ++ a2).all (fun c => c != '"') = true := by
                rw [← ha2]
                exact hvq
              simp only [List.all_append, Bool.and_eq_true] at this
              exact this.2
            have hlen : a2.length ≤ n := by
              have hlc := congrArg List.length ha2
              simp only [List.length_cons, List.length_append] at hlc
              have hg0 : 0 < g.length := by
                rw [hg]
                simp [litHost]
              omega
            rw [hrr2] at hclrr
            exact ih a2 r false hlen ha2q hclrr

/-! ### The secret scan preserves host-match failure -/

lemma pwdscan_hostBody_fail (pwd : List Char) :
    ∀ (n : Nat) (u : List Char) (b : Bool), u.length ≤ n →
      hostBody u = false → hostBody (scanStr (mPwd pwd) b u) = false := by
  intro n
  induction n with
  | zero =>
    intro u b hu hbf
    have : u = [] := List.eq_nil_of_length_eq_zero (Nat.le_zero.mp hu)
    subst this
    rwa [scanStr_nil (shrinks_mPwd pwd)]
  | succ n ih =>
    intro u b hu hbf
    by_cases hmatch : b = true ∧ (matchPwdAt u).isSome
    · obtain ⟨hb, hsome⟩ := hmatch
      subst hb
      cases hm : matchPwdAt u with
      | none => rw [hm] at hsome; simp at hsome
      | some y =>
        obtain ⟨g, v, r⟩ := y
        rw [scanStr_match (shrinks_mPwd pwd) (mPwd_some hm)]
        obtain ⟨w1, w2, hg, _, hw1s, _, _, _, _⟩ := matchPwdAt_some hm
        subst hg
        have hshape : ((w1 ++ litPwd ++ w2) ++ '"' :: (pwd ++ [ '"' ]))
            ++ scanStr (mPwd pwd) false r
            = w1 ++ (litPwd ++ (w2 ++ '"' :: (pwd ++ [ '"' ]
                ++ scanStr (mPwd pwd) false r))) := by
          simp [List.append_assoc]
        unfold hostBody
        rw [hshape, dropWhile_app_of_all _ hw1s, dropWhile_litPwd_app,
          litHost_not_pfx_app_litPwd]
        simp
    · have hstep : scanStr (mPwd pwd) b u = match u with
          | [] => []
          | c :: t => c :: scanStr (mPwd pwd) (c == '\n') t := by
        cases u with
        | nil => cases b <;> simp [scanStr_nil (shrinks_mPwd pwd)]
        | cons c t =>
          cases b with
          | false => rw [scanStr_false]
          | true =>
            cases hm : matchPwdAt (c :: t) with
            | none => rw [scanStr_none (mPwd_none hm)]
            | some y =>
              exact absurd ⟨rfl, by rw [hm]; rfl⟩ hmatch
      cases u with
      | nil => rwa [scanStr_nil (shrinks_mPwd pwd)]
      | cons e u' =>
        simp only at hstep
        rw [hstep]
        have hu' : u'.length ≤ n := by simpa [Nat.succ_le_succ_iff] using hu
        by_cases hsp : pySpace e = true
        · rw [hostBody_cons_ws hsp]
          exact ih u' (e == '\n') hu' (by rwa [hostBody_cons_ws hsp] at hbf)
        · have hsp' : pySpace e = false := by simpa using hsp
          have hnl : (e == '\n') = false := beq_newline_false_of_not_pySpace hsp'
          rw [hnl]
          by_cases hea : e = 'a'
          · subst hea
            by_cases hT : litHostT.isPrefixOf u' = true
            · obtain ⟨rest, hrest⟩ := List.isPrefixOf_iff_prefix.mp hT
              subst hrest
              rw [scanStr_emit_false litHostT _ (by decide)]
              have hout : 'a' :: (litHostT ++ scanStr (mPwd pwd) false rest)
                  = litHost ++ scanStr (mPwd pwd) false rest := by
                rw [litHost_cons]
                rfl
              have hin : 'a' :: (litHostT ++ rest) = litHost ++ rest := by
                rw [litHost_cons]
                rfl
              rw [hout]
              rw [hin] at hbf
              unfold hostBody at hbf ⊢
              rw [dropWhile_litHost_app, List.drop_left] at hbf ⊢
              rw [List.isPrefixOf_iff_prefix.mpr (List.prefix_append _ _)]
                at hbf ⊢
              simp only [Bool.true_and] at hbf ⊢
              by_cases hw2 : rest.takeWhile pySpace = []
              · have hA' : (scanStr (mPwd pwd) false rest).takeWhile pySpace
                    = [] := by
                  rw [takeWhile_nil_iff] at hw2 ⊢
                  intro d hd
                  cases rest with
                  | nil => rw [scanStr_false_nil] at hd; simp at hd
                  | cons r0 rest' =>
                    rw [scanStr_false] at hd
                    have : r0 = d := by simpa using hd
                    subst this
                    exact hw2 r0 rfl
                simp [hA']
              · have hvin : (rest.dropWhile pySpace).takeWhile digitDot = [] := by
                  rcases Bool.and_eq_false_iff.mp hbf with h | h
                  · exact absurd (by simpa [List.isEmpty_iff] using h) hw2
                  · simpa [List.isEmpty_iff] using h
                have hok : ∀ d, (rest.dropWhile pySpace).head? = some d →
                    digitDot d = false := takeWhile_nil_iff.mp hvin
                have hout2 := wsHead_pred_pwd_scan pwd digitDot (by decide)
                  rest.length rest false (Nat.le_refl _) hok
                have hvout : ((scanStr (mPwd pwd) false
                    rest).dropWhile pySpace).takeWhile digitDot = [] :=
                  takeWhile_nil_iff.mpr hout2
                simp [hvout]
            · have hbout : litHostT.isPrefixOf (scanStr (mPwd pwd) false u')
                  = false :=
                scanStr_pfx_false u'.length litHostT u' (Nat.le_refl _)
                  (by decide) (by decide) (Bool.eq_false_iff.mpr hT)
              unfold hostBody
              rw [dropWhile_cons_neg _ hsp', litHost_cons,
                isPrefixOf_cons_same, hbout]
              simp
          · unfold hostBody
            rw [dropWhile_cons_neg _ hsp', litHost_cons,
              isPrefixOf_cons_ne _ _ (fun h => hea h.symm)]
            simp

/-! ### hostClean is preserved by the secret substitution -/

lemma hostClean_pwd_context (ip w1 w2 z : List Char)
    (hw1s : w1.all pySpace = true) (hw2s : w2.all pySpace = true) (b : Bool) :
    hostClean ip b (w1 ++ (litPwd ++ (w2 ++ '"' :: z)))
      = hostClean ip false z := by
  have hf1 : ∀ wa wb, w1 = wa ++ wb → wb ≠ [] →
      matchHostAt (wb ++ (litPwd ++ (w2 ++ '"' :: z))) = none := by
    intro wa wb hsplit _
    apply matchHostAt_none_pfxfail
    have hwb : wb.all pySpace = true := by
      have hh : (wa ++ wb).all pySpace = true := by
        rw [← hsplit]
        exact hw1s
      simp only [List.all_append, Bool.and_eq_true] at hh
      exact hh.2
    rw [dropWhile_app_of_all _ hwb, dropWhile_litPwd_app]
    exact litHost_not_pfx_app_litPwd _
  have hf2 : ∀ wa wb, w2 = wa ++ wb → wb ≠ [] →
      matchHostAt (wb ++ '"' :: z) = none := by
    intro wa wb hsplit _
    apply matchHostAt_none_pfxfail
    have hwb : wb.all pySpace = true := by
      have hh : (wa ++ wb).all pySpace = true := by
        rw [← hsplit]
        exact hw2s
      simp only [List.all_append, Bool.and_eq_true] at hh
      exact hh.2
    rw [dropWhile_app_of_all _ hwb, dropWhile_cons_neg _ (by decide),
      litHost_cons]
    exact isPrefixOf_cons_ne _ _ (by decide)
  rw [hostClean_walk w1 _ b hf1,
    hostClean_walk_nonws litPwd _ _ (by decide),
    stateAfter_false_of_no_nl litPwd _ (by decide) (by simp [litPwd]),
    hostClean_walk w2 _ false hf2,
    hostClean_step_nonws _ (by decide)]

lemma pwdScan_host_context (pwd w1t w2 vh r : List Char)
    (hw1s : w1t.all pySpace = true) (hw2s : w2.all pySpace = true)
    (hvne : vh ≠ []) (hvd : vh.all digitDot = true) (b : Bool) :
    scanStr (mPwd pwd) b (w1t ++ (litHost ++ (w2 ++ (vh ++ r))))
      = w1t ++ (litHost ++ (w2 ++ (vh ++ scanStr (mPwd pwd) false r))) := by
  have hf1 : ∀ wa wb, w1t = wa ++ wb → wb ≠ [] →
      mPwd pwd (wb ++ (litHost ++ (w2 ++ (vh ++ r)))) = none := by
    intro wa wb hsplit _
    apply mPwd_none
    apply matchPwdAt_none_pfxfail
    have hwb : wb.all pySpace = true := by
      have hh : (wa ++ wb).all pySpace = true := by
        rw [← hsplit]
        exact hw1s
      simp only [List.all_append, Bool.and_eq_true] at hh
      exact hh.2
    rw [dropWhile_app_of_all _ hwb, dropWhile_litHost_app]
    exact litPwd_not_pfx_app_litHost _
  have hf2 : ∀ wa wb, w2 = wa ++ wb → wb ≠ [] →
      mPwd pwd (wb ++ (vh ++ r)) = none := by
    intro wa wb hsplit _
    apply mPwd_none
    apply matchPwdAt_none_pfxfail
    have hwb : wb.all pySpace = true := by
      have hh : (wa ++ wb).all pySpace = true := by
        rw [← hsplit]
        exact hw2s
      simp only [List.all_append, Bool.and_eq_true] at hh
      exact hh.2
    rw [dropWhile_app_of_all _ hwb]
    cases vh with
    | nil => exact absurd rfl hvne
    | cons v0 vt =>
      have hv0 : digitDot v0 = true := all_head hvd
      rw [List.cons_append,
        dropWhile_cons_neg _ (not_pySpace_of_digitDot hv0), litPwd_cons]
      exact isPrefixOf_cons_ne _ _ (fun hx => digitDot_ne_a hv0 hx.symm)
  have hvnws : vh.all (fun c => !(pySpace c)) = true :=
    all_mono (fun c hc => by rw [not_pySpace_of_digitDot hc]; rfl) hvd
  have hvnl : vh.all (fun c => c != '\n') = true :=
    all_mono (fun c hc => digitDot_ne_nl hc) hvd
  rw [scanStr_walk w1t _ b hf1,
    scanStr_walk_nonws (mPwd_nonws pwd) litHost _ _ (by decide),
    stateAfter_false_of_no_nl litHost _ (by decide) (by simp [litHost]),
    scanStr_walk w2 _ false hf2,
    scanStr_walk_nonws (mPwd_nonws pwd) vh _ _ hvnws,
    stateAfter_false_of_no_nl vh _ hvnl hvne]

lemma hostClean_pwd_scan (ip pwd : List Char)
    (hpn : pwd.all (fun c => c != '\n') = true) :
    ∀ (n : Nat) (u : List Char) (b : Bool), u.length ≤ n →
      hostClean ip b u = true →
      hostClean ip b (scanStr (mPwd pwd) b u) = true := by
  intro n
  induction n with
  | zero =>
    intro u b hu hcl
    have : u = [] := List.eq_nil_of_length_eq_zero (Nat.le_zero.mp hu)
    subst this
    rwa [scanStr_nil (shrinks_mPwd pwd)]
  | succ n ih =>
    intro u b hu hcl
    cases u with
    | nil => rwa [scanStr_nil (shrinks_mPwd pwd)]
    | cons c t =>
      have ht : t.length ≤ n := by simpa [Nat.succ_le_succ_iff] using hu
      cases b with
      | false =>
        rw [scanStr_false, hostClean_false]
        exact ih t (c == '\n') ht (by rwa [hostClean_false] at hcl)
      | true =>
        cases hm : matchPwdAt (c :: t) with
        | some y =>
          obtain ⟨g, v, r⟩ := y
          obtain ⟨w1, w2, hg, hw1, hw1s, hw2, hw2s, hvq, hseq⟩ :=
            matchPwdAt_some hm
          subst hg
          have hr : r.length ≤ n := by
            have hlen := congrArg List.length hseq
            simp only [List.length_cons, List.length_append] at hlen
            have hw1l : 0 < w1.length := List.length_pos.mpr hw1
            omega
          have hshape_in : c :: t
              = w1 ++ (litPwd ++ (w2 ++ '"' :: (v ++ '"' :: r))) := by
            rw [hseq]
            simp [List.append_assoc]
          rw [hshape_in, hostClean_pwd_context ip w1 w2 _ hw1s hw2s true]
            at hcl
          have hclr : hostClean ip false r = true :=
            hostClean_ext ip v.length v r false (Nat.le_refl _) hvq hcl
          rw [scanStr_match (shrinks_mPwd pwd) (mPwd_some hm)]
          have hshape_out : ((w1 ++ litPwd ++ w2) ++ '"' :: (pwd ++ [ '"' ]))
              ++ scanStr (mPwd pwd) false r
              = w1 ++ (litPwd ++ (w2 ++ '"' :: (pwd
                  ++ '"' :: scanStr (mPwd pwd) false r))) := by
            simp [List.append_assoc]
          rw [hshape_out, hostClean_pwd_context ip w1 w2 _ hw1s hw2s true,
            hostClean_emit_false pwd _ hpn, hostClean_false]
          have hq : ('"' == '\n') = false := by decide
          rw [hq]
          exact ih r false hr hclr
        | none =>
          rw [scanStr_none (mPwd_none hm)]
          cases hmh : matchHostAt (c :: t) with
          | some yh =>
            obtain ⟨gh, vh, rh⟩ := yh
            have hclparts := hcl
            rw [hostClean_match hmh] at hclparts
            obtain ⟨hvip, hclrh⟩ := Bool.and_eq_true_iff.mp hclparts
            obtain ⟨w1, w2, hgh, hw1ne, hw1s, hw2ne, hw2s, hvne, hvd,
              hseq, hrhh⟩ := matchHostAt_some hmh
            subst hgh
            have hrh : rh.length ≤ n := by
              have hlen := congrArg List.length hseq
              simp only [List.length_cons, List.length_append] at hlen
              have hw1l : 0 < w1.length := List.length_pos.mpr hw1ne
              have hvl : 0 < vh.length := List.length_pos.mpr hvne
              omega
            cases w1 with
            | nil => exact absurd rfl hw1ne
            | cons a w1t =>
              have hform : c :: t
                  = a :: (w1t ++ (litHost ++ (w2 ++ (vh ++ rh)))) := by
                rw [hseq]
                simp [List.append_assoc]
              have hca : c = a := (List.cons.injEq _ _ _ _ ▸ hform).1
              have hta : t = w1t ++ (litHost ++ (w2 ++ (vh ++ rh))) :=
                (List.cons.injEq _ _ _ _ ▸ hform).2
              subst hca
              have hw1ts : w1t.all pySpace = true := all_tail hw1s
              rw [hta, pwdScan_host_context pwd w1t w2 vh rh hw1ts hw2s
                hvne hvd _]
              have hd : ∀ cc,
                  (scanStr (mPwd pwd) false rh).head? = some cc →
                  digitDot cc = false := by
                cases rh with
                | nil =>
                  rw [scanStr_false_nil]
                  intro cc hcc
                  simp at hcc
                | cons r0 r' =>
                  rw [scanStr_false]
                  intro cc hcc
                  have : r0 = cc := by simpa using hcc
                  subst this
                  exact hrhh r0 rfl
              have hback : c :: (w1t ++ (litHost ++ (w2 ++ (vh
                  ++ scanStr (mPwd pwd) false rh))))
                  = ((c :: w1t) ++ litHost ++ w2) ++ vh
                    ++ scanStr (mPwd pwd) false rh := by
                simp [List.append_assoc]
              rw [hback]
              have hm2 := @matchHostAt_rematch (c :: w1t) w2 vh
                (scanStr (mPwd pwd) false rh)
                (by simp) hw1s hw2ne hw2s hvne hvd hd
              rw [hostClean_match hm2]
              rw [Bool.and_eq_true_iff]
              exact ⟨hvip, ih rh false hrh hclrh⟩
          | none =>
            have hnone2 : matchHostAt
                (c :: scanStr (mPwd pwd) (c == '\n') t) = none := by
              by_cases hsp : pySpace c = true
              · rw [matchHostAt_cons_ws hsp] at hmh ⊢
                exact pwdscan_hostBody_fail pwd t.length t (c == '\n')
                  (Nat.le_refl _) hmh
              · exact matchHostAt_cons_notws (by simpa using hsp)
            rw [hostClean_none hnone2]
            exact ih t (c == '\n') ht (by rwa [hostClean_none hmh] at hcl)

/-! ### Idempotence of the full inventory update -/

lemma updateInventory_idem_aux (ip pwd c : List Char)
    (hip : ip ≠ []) (hipd : ip.all digitDot = true)
    (hpq : pwd.all (fun x => x != '"') = true)
    (hpn : pwd.all (fun x => x != '\n') = true) :
    updateInventory ip pwd (updateInventory ip pwd c)
      = updateInventory ip pwd c := by
  unfold updateInventory subAnsiblePwd subAnsibleHost
  have h1 : hostClean ip true (scanStr (mHost ip) true c) = true :=
    hostClean_of_scan ip hip hipd c.length c true (Nat.le_refl _)
  have h2 : hostClean ip true
      (scanStr (mPwd pwd) true (scanStr (mHost ip) true c)) = true :=
    hostClean_pwd_scan ip pwd hpn _ _ true (Nat.le_refl _) h1
  have h3 : scanStr (mHost ip) true
      (scanStr (mPwd pwd) true (scanStr (mHost ip) true c))
      = scanStr (mPwd pwd) true (scanStr (mHost ip) true c) :=
    hostClean_eq_self ip _ _ true (Nat.le_refl _) h2
  rw [h3, subPwd_idem_aux pwd hpq _ _ true (Nat.le_refl _)]

/-! ### Frame decomposition of a substitution pass -/

lemma sleepRunBlocks_succ (rcs : Nat → Int) (s k : Nat) :
    sleepRunBlocks rcs s (k + 1)
      = PEvent.sleep 30 :: PEvent.run (rcs s)
        :: sleepRunBlocks rcs (s + 1) k := by
  unfold sleepRunBlocks
  rw [List.range_succ_eq_map]
  simp only [List.map_cons, List.flatten_cons, List.map_map]
  have hm : (List.range k).map
        ((fun i => [ PEvent.sleep 30, PEvent.run (rcs (s + i)) ]) ∘ Nat.succ)
      = (List.range k).map
        (fun i => [ PEvent.sleep 30, PEvent.run (rcs (s + 1 + i)) ]) := by
    apply List.map_congr_left
    intro i _
    have he : s + (i + 1) = s + 1 + i := by omega
    simp [Function.comp_def, Nat.succ_eq_add_one, he]
  rw [hm]
  simp

lemma countP_sleepRunBlocks (rcs : Nat → Int) (s k : Nat) :
    (sleepRunBlocks rcs s k).countP isRunEvent = k := by
  induction k generalizing s with
  | zero => rfl
  | succ k ih =>
    rw [sleepRunBlocks_succ]
    simp [List.countP_cons, isRunEvent, ih]

lemma playbookGo_pos (rcs : Nat → Int) (budget : Nat) :
    ∀ j : Nat, ∃ k, k ≤ budget ∧
      (playbookGo rcs budget (j + 1)).1 = sleepRunBlocks rcs (j + 1) k ∧
      (∀ i, i + 1 < k → rcs (j + 1 + i) ≠ 0) ∧
      ((playbookGo rcs budget (j + 1)).2 = true ↔ 0 < k ∧ rcs (j + k) = 0) ∧
      (k < budget → (playbookGo rcs budget (j + 1)).2 = true) := by
  induction budget with
  | zero =>
    intro j
    refine ⟨0, Nat.le_refl _, rfl, fun i hi => absurd hi (by omega),
      by simp [playbookGo], fun h => absurd h (by omega)⟩
  | succ b ih =>
    intro j
    by_cases h0 : rcs (j + 1) = 0
    · refine ⟨1, by omega, ?_, fun i hi => absurd hi (by omega), ?_, fun _ => ?_⟩
      · have hr : List.range 1 = [0] := rfl
        simp [playbookGo, h0, sleepRunBlocks, hr]
      · simp only [playbookGo, h0]
        simp [h0]
      · simp [playbookGo, h0]
    · obtain ⟨k', hk'le, htr, hfail, hiff, hexit⟩ := ih (j + 1)
      have hu : playbookGo rcs (b + 1) (j + 1)
          = (PEvent.sleep 30 :: PEvent.run (rcs (j + 1))
              :: (playbookGo rcs b (j + 2)).1,
             (playbookGo rcs b (j + 2)).2) := by
        simp [playbookGo, h0]
      refine ⟨k' + 1, by omega, ?_, ?_, ?_, ?_⟩
      · rw [hu, sleepRunBlocks_succ]
        simp [htr]
      · intro i hi
        match i with
        | 0 => simpa using h0
        | i' + 1 =>
          have he : j + 1 + (i' + 1) = j + 1 + 1 + i' := by omega
          rw [he]
          exact hfail i' (by omega)
      · rw [hu]
        dsimp only
        rw [hiff]
        constructor
        · rintro ⟨hk0, hr⟩
          have he : j + 1 + k' = j + (k' + 1) := by omega
          exact ⟨by omega, by rw [← he]; exact hr⟩
        · rintro ⟨-, hr⟩
          rcases Nat.eq_zero_or_pos k' with h | h
          · subst h
            exact absurd (by simpa using hr) h0
          · have he : j + 1 + k' = j + (k' + 1) := by omega
            exact ⟨h, by rw [he]; exact hr⟩
      · intro hk
        rw [hu]
        exact hexit (by omega)

lemma runPlaybookRetries_shape (rcs : Nat → Int) (maxRetries : Nat) :
    ∃ k, 1 ≤ k ∧ k ≤ maxRetries + 1 ∧
      (runPlaybookRetries rcs maxRetries).1 = playbookTraceShape rcs k ∧
      (∀ i, i + 1 < k → rcs i ≠ 0) ∧
      ((runPlaybookRetries rcs maxRetries).2 = true ↔ rcs (k - 1) = 0) ∧
      ((runPlaybookRetries rcs maxRetries).2 = false → k = maxRetries + 1) := by
  unfold runPlaybookRetries
  by_cases h0 : rcs 0 = 0
  · refine ⟨1, Nat.le_refl _, by omega, ?_,
      fun i hi => absurd hi (by omega), ?_, fun h => ?_⟩
    · simp [playbookGo, h0, playbookTraceShape, sleepRunBlocks]
    · simp [playbookGo, h0]
    · have ht : (playbookGo rcs (maxRetries + 1) 0).2 = true := by
        simp [playbookGo, h0]
      exact absurd ht (by simp [h])
  · have hu : playbookGo rcs (maxRetries + 1) 0
        = (PEvent.run (rcs 0) :: (playbookGo rcs maxRetries 1).1,
           (playbookGo rcs maxRetries 1).2) := by
      simp [playbookGo, h0]
    obtain ⟨k', hk'le, htr, hfail, hiff, hexit⟩ := playbookGo_pos rcs maxRetries 0
    refine ⟨k' + 1, by omega, by omega, ?_, ?_, ?_, ?_⟩
    · rw [hu]
      dsimp only
      rw [htr]
      rfl
    · intro i hi
      match i with
      | 0 => exact h0
      | i' + 1 =>
        have he : i' + 1 = 0 + 1 + i' := by omega
        rw [he]
        exact hfail i' (by omega)
    · rw [hu]
      dsimp only
      rw [hiff]
      constructor
      · rintro ⟨-, hr⟩
        simpa using hr
      · intro hr
        rcases Nat.eq_zero_or_pos k' with h | h
        · subst h
          exact absurd (by simpa using hr) h0
        · exact ⟨h, by simpa using hr⟩
    · intro hk
      rw [hu] at hk
      dsimp only at hk
      by_cases hlt : k' < maxRetries
      · have h2 := hexit hlt
        rw [h2] at hk
        exact Bool.noConfusion hk
      · omega

/-! ### Prober trace characterization -/

lemma wAttemptBlocks_succ (k : Nat) :
    wAttemptBlocks (k + 1)
      = WEvent.sleep 30 :: WEvent.connAttempt 5 :: wAttemptBlocks k := by
  unfold wAttemptBlocks
  rw [List.range_succ_eq_map]
  simp [List.map_map, Function.comp_def]

lemma countP_wAttemptBlocks (k : Nat) :
    (wAttemptBlocks k).countP isAttemptEvent = k := by
  induction k with
  | zero => rfl
  | succ k ih =>
    rw [wAttemptBlocks_succ]
    simp [List.countP_cons, isAttemptEvent, ih]

lemma mem_wAttemptBlocks (k : Nat) (e : WEvent) (h : e ∈ wAttemptBlocks k) :
    e = WEvent.connAttempt 5 ∨ e = WEvent.sleep 30 := by
  induction k with
  | zero => cases h
  | succ k ih =>
    rw [wAttemptBlocks_succ] at h
    simp only [List.mem_cons] at h
    rcases h with h | h | h
    · exact Or.inr h
    · exact Or.inl h
    · exact ih h

lemma winrmGo_succeeds (res : Nat → ConnResult) (maxAttempts : Nat) :
    ∀ budget att, 1 ≤ budget → att + budget = maxAttempts + 1 →
      ∃ k, 1 ≤ k ∧ k ≤ budget ∧
        (winrmGo res maxAttempts budget att).1
          = WEvent.connAttempt 5 :: wAttemptBlocks (k - 1) ∧
        (∀ i, i < k - 1 → res (att + i) ≠ ConnResult.code 0) ∧
        ((winrmGo res maxAttempts budget att).2 = true
          ↔ res (att + (k - 1)) = ConnResult.code 0) ∧
        ((winrmGo res maxAttempts budget att).2 = false → k = budget) := by
  intro budget
  induction budget with
  | zero => intro att h1 _; omega
  | succ b ih =>
    intro att _ hsum
    by_cases h0 : res att = ConnResult.code 0
    · refine ⟨1, Nat.le_refl _, by omega, by simp [winrmGo, h0, wAttemptBlocks],
        fun i hi => absurd hi (by omega), ?_, fun h => ?_⟩
      · simp [winrmGo, h0]
      · have ht : (winrmGo res maxAttempts (b + 1) att).2 = true := by
          simp [winrmGo, h0]
        exact absurd ht (by simp [h])
    · by_cases hb : 1 ≤ b
      · have hl : att < maxAttempts := by omega
        obtain ⟨k', hk1, hk'le, htr, hfail, hiff, hex⟩ :=
          ih (att + 1) hb (by omega)
        have hu : winrmGo res maxAttempts (b + 1) att
            = (WEvent.connAttempt 5 :: WEvent.sleep 30
                :: (winrmGo res maxAttempts b (att + 1)).1,
               (winrmGo res maxAttempts b (att + 1)).2) := by
          simp [winrmGo, h0, hl]
        refine ⟨k' + 1, by omega, by omega, ?_, ?_, ?_, ?_⟩
        · rw [hu]
          dsimp only
          rw [htr]
          have he : k' + 1 - 1 = (k' - 1) + 1 := by omega
          rw [he, wAttemptBlocks_succ]
        · intro i hi
          match i with
          | 0 => simpa using h0
          | i' + 1 =>
            have he : att + (i' + 1) = att + 1 + i' := by omega
            rw [he]
            exact hfail i' (by omega)
        · rw [hu]
          dsimp only
          rw [hiff]
          have he : att + 1 + (k' - 1) = att + (k' + 1 - 1) := by omega
          rw [he]
        · intro h
          rw [hu] at h
          dsimp only at h
          have := hex h
          omega
      · have hb0 : b = 0 := by omega
        have hl : ¬ att < maxAttempts := by omega
        refine ⟨1, Nat.le_refl _, by omega, ?_,
          fun i hi => absurd hi (by omega), ?_, fun _ => by omega⟩
        · subst hb0
          simp [winrmGo, h0, hl, wAttemptBlocks]
        · subst hb0
          simp [winrmGo, h0, hl]

/-! ### Chained literal find-and-replace (deploy.py:161-165) -/

lemma replaceAllFuel_congr (pat rep : List Char) :
    ∀ n s f1 f2, s.length ≤ n → s.length ≤ f1 → s.length ≤ f2 →
      replaceAllFuel pat rep f1 s = replaceAllFuel pat rep f2 s := by
  intro n
  induction n with
  | zero =>
    intro s f1 f2 hn _ _
    have hs : s = [] := List.eq_nil_of_length_eq_zero (Nat.le_zero.mp hn)
    subst hs
    cases f1 <;> cases f2 <;> rfl
  | succ n ih =>
    intro s f1 f2 hn h1 h2
    match s, f1, f2 with
    | [], f1, f2 => cases f1 <;> cases f2 <;> rfl
    | c :: t, 0, f2 => simp at h1
    | c :: t, f1 + 1, 0 => simp at h2
    | c :: t, f1 + 1, f2 + 1 =>
      by_cases hp : (!pat.isEmpty && pat.isPrefixOf (c :: t)) = true
      · have hne : pat.length ≠ 0 := by
          intro hz
          have : pat = [] := List.eq_nil_of_length_eq_zero hz
          subst this
          simp at hp
        have hd : ((c :: t).drop pat.length).length ≤ n := by
          simp only [List.length_drop, List.length_cons]
          simp only [List.length_cons] at hn
          omega
        have hd1 : ((c :: t).drop pat.length).length ≤ f1 := by
          simp only [List.length_drop, List.length_cons]
          simp only [List.length_cons] at h1
          omega
        have hd2 : ((c :: t).drop pat.length).length ≤ f2 := by
          simp only [List.length_drop, List.length_cons]
          simp only [List.length_cons] at h2
          omega
        simp only [replaceAllFuel, hp, if_true]
        rw [ih _ f1 f2 hd hd1 hd2]
      · have hn' : t.length ≤ n := by
          simp only [List.length_cons] at hn
          omega
        have h1' : t.length ≤ f1 := by
          simp only [List.length_cons] at h1
          omega
        have h2' : t.length ≤ f2 := by
          simp only [List.length_cons] at h2
          omega
        simp [replaceAllFuel, hp]
        rw [ih _ f1 f2 hn' h1' h2']

lemma replaceAll_match (pat rep c t)
    (h : (!pat.isEmpty && pat.isPrefixOf (c :: t)) = true) :
    replaceAll pat rep (c :: t)
      = rep ++ replaceAll pat rep ((c :: t).drop pat.length) := by
  have hne : pat.length ≠ 0 := by
    intro hz
    have : pat = [] := List.eq_nil_of_length_eq_zero hz
    subst this
    simp at h
  unfold replaceAll
  simp only [List.length_cons, replaceAllFuel, h, if_true]
  congr 1
  apply replaceAllFuel_congr pat rep (((c :: t).drop pat.length).length)
  · exact Nat.le_refl _
  · simp only [List.length_drop, List.length_cons]
    omega
  · exact Nat.le_refl _

lemma replaceAll_step (pat rep c t)
    (h : (!pat.isEmpty && pat.isPrefixOf (c :: t)) = false) :
    replaceAll pat rep (c :: t) = c :: replaceAll pat rep t := by
  unfold replaceAll
  simp [replaceAllFuel, h]

lemma replaceAll_skip (pat rep : List Char) :
    ∀ x y, (∀ k, k < x.length → pat.isPrefixOf (x.drop k ++ y) = false) →
      replaceAll pat rep (x ++ y) = x ++ replaceAll pat rep y := by
  intro x
  induction x with
  | nil => intro y _; simp
  | cons c t ih =>
    intro y h
    have h0 : pat.isPrefixOf (c :: t ++ y) = false := by
      have := h 0 (by simp)
      simpa using this
    have hcond : (!pat.isEmpty && pat.isPrefixOf (c :: (t ++ y))) = false := by
      rw [← List.cons_append, h0, Bool.and_false]
    rw [List.cons_append, replaceAll_step pat rep c (t ++ y) hcond,
      ih y (fun k hk => by simpa using h (k + 1) (by simpa using hk))]
    simp

lemma replaceAll_head_match (pat rep z : List Char) (h : pat ≠ []) :
    replaceAll pat rep (pat ++ z) = rep ++ replaceAll pat rep z := by
  match pat, h with
  | p :: pt, _ =>
    have hcond : (!(p :: pt).isEmpty
        && (p :: pt).isPrefixOf (p :: (pt ++ z))) = true := by
      simp only [List.isEmpty_cons, Bool.not_false, Bool.true_and,
        ← List.cons_append]
      rw [List.isPrefixOf_iff_prefix]
      exact List.prefix_append _ _
    rw [List.cons_append, replaceAll_match _ _ _ _ hcond, ← List.cons_append,
      List.drop_left]

lemma replaceAll_no_occ (pat rep : List Char) :
    ∀ z, (∀ k, k < z.length → pat.isPrefixOf (z.drop k) = false) →
      replaceAll pat rep z = z := by
  intro z
  induction z with
  | nil => intro _; rfl
  | cons c t ih =>
    intro h
    have h0 : pat.isPrefixOf (c :: t) = false := by
      have := h 0 (by simp)
      simpa using this
    have hcond : (!pat.isEmpty && pat.isPrefixOf (c :: t)) = false := by
      rw [h0, Bool.and_false]
    rw [replaceAll_step pat rep c t hcond,
      ih (fun k hk => by simpa using h (k + 1) (by simpa using hk))]

lemma isPrefixOf_append_false (pat a b : List Char)
    (h1 : pat.isPrefixOf a = false) (h2 : a.isPrefixOf pat = false) :
    pat.isPrefixOf (a ++ b) = false := by
  by_contra hcon
  have ht : pat.isPrefixOf (a ++ b) = true := by
    cases hx : pat.isPrefixOf (a ++ b)
    · exact absurd hx hcon
    · rfl
  rw [List.isPrefixOf_iff_prefix] at ht
  rcases List.prefix_or_prefix_of_prefix ht (List.prefix_append a b) with h | h
  · rw [← List.isPrefixOf_iff_prefix] at h
    rw [h] at h1
    exact Bool.noConfusion h1
  · rw [← List.isPrefixOf_iff_prefix] at h
    rw [h] at h2
    exact Bool.noConfusion h2

lemma skip_concrete (pat rep x y : List Char)
    (h : ∀ k, k < x.length → pat.isPrefixOf (List.drop k x) = false
      ∧ (List.drop k x).isPrefixOf pat = false) :
    replaceAll pat rep (x ++ y) = x ++ replaceAll pat rep y := by
  apply replaceAll_skip
  intro k hk
  exact isPrefixOf_append_false _ _ _ (h k hk).1 (h k hk).2

lemma noPrefix_block (p u rest : List Char) (c₀ : Char) (A : Char → Bool)
    (hu : u.all A = true) (hc : A c₀ = false)
    (hpA : p.all A = false)
    (hkey : ∀ k, (h : k < p.length) → p.get ⟨k, h⟩ = c₀
      → (p.take k).all A = false) :
    p.isPrefixOf (u ++ c₀ :: rest) = false := by
  by_contra hcon
  have ht : p.isPrefixOf (u ++ c₀ :: rest) = true := by
    cases hx : p.isPrefixOf (u ++ c₀ :: rest)
    · exact absurd hx hcon
    · rfl
  rw [List.isPrefixOf_iff_prefix] at ht
  rcases le_or_lt p.length u.length with hle | hlt
  · have hpu : p <+: u := by
      rcases List.prefix_or_prefix_of_prefix ht (List.prefix_append u _)
        with h | h
      · exact h
      · have := List.IsPrefix.length_le h
        have hpe : u = p := List.IsPrefix.eq_of_length_le h (by omega)
        rw [hpe]
    have hall : p.all A = true := by
      rw [List.all_eq_true]
      intro x hx
      have hxu : x ∈ u := hpu.sublist.subset hx
      exact List.all_eq_true.mp hu x hxu
    rw [hall] at hpA
    exact Bool.noConfusion hpA
  · have hpt := List.prefix_iff_eq_take.mp ht
    rw [List.take_append_eq_append_take,
      List.take_of_length_le (by omega : u.length ≤ p.length)] at hpt
    have hd : p.length - u.length = (p.length - u.length - 1) + 1 := by omega
    rw [hd] at hpt
    simp only [List.take_succ_cons] at hpt
    have hdr : p.drop u.length
        = c₀ :: List.take (p.length - u.length - 1) rest := by
      conv_lhs => rw [hpt]
      rw [List.drop_left]
    have hsome : p[u.length]? = some c₀ := by
      rw [← List.head?_drop, hdr]
      rfl
    have hget : p.get ⟨u.length, hlt⟩ = c₀ := by
      have h4 := List.getElem?_eq_getElem hlt
      rw [h4] at hsome
      rw [List.get_eq_getElem]
      exact Option.some.inj hsome
    have htk : p.take u.length = u := by
      conv_lhs => rw [hpt]
      rw [List.take_append_eq_append_take,
        List.take_of_length_le (Nat.le_refl _)]
      simp
    have := hkey u.length hlt hget
    rw [htk, hu] at this
    exact Bool.noConfusion this

lemma skip_block (pat rep u rest : List Char) (c₀ : Char) (A : Char → Bool)
    (hu : u.all A = true) (hc : A c₀ = false)
    (hpA : pat.all A = false)
    (hkey : ∀ k, (h : k < pat.length) → pat.get ⟨k, h⟩ = c₀
      → (pat.take k).all A = false) :
    replaceAll pat rep (u ++ c₀ :: rest)
      = u ++ replaceAll pat rep (c₀ :: rest) := by
  apply replaceAll_skip
  intro k hk
  have hdall : (u.drop k).all A = true := by
    rw [List.all_eq_true]
    intro x hx
    exact List.all_eq_true.mp hu x ((List.drop_sublist k u).subset hx)
  exact noPrefix_block pat (u.drop k) rest c₀ A hdall hc hpA hkey

lemma pyBoolStr_all_ok (b : Bool) : (pyBoolStr b).all okChar = true := by
  cases b <;> decide

lemma deriveTfvars_correct (env region itype : List Char) (eip rds : Bool)
    (henv : env.all okChar = true) (hreg : region.all okChar = true)
    (hit : itype.all okChar = true) :
    deriveTfvars env region itype eip rds tfvarsTemplate
      = "# Terraform variables\nenvironment = \"".toList ++ (env
        ++ ('"' :: ("\naws_region = \"".toList ++ (region
        ++ ('"' :: ("\ninstance_type = \"".toList ++ (itype
        ++ ('"' :: ("\nuse_elastic_ip = ".toList ++ (pyBoolStr eip
        ++ ("\ncreate_rds = ".toList ++ (pyBoolStr rds
        ++ "\n".toList)))))))))))) := by
  have h1 : replaceAll envPat (envRep env) tfvarsTemplate
      = "# Terraform variables\nenvironment = \"".toList ++ (env
        ++ ('"' :: ("\n".toList ++ (regionPat
        ++ "\ninstance_type = \"t3a.medium\"\nuse_elastic_ip = false\ncreate_rds = false\n".toList)))) := by
    rw [show tfvarsTemplate
        = "# Terraform variables\n".toList ++ (envPat
          ++ "\naws_region = \"us-east-1\"\ninstance_type = \"t3a.medium\"\nuse_elastic_ip = false\ncreate_rds = false\n".toList)
        from by decide,
      skip_concrete envPat (envRep env) "# Terraform variables\n".toList _
        (by decide),
      replaceAll_head_match envPat (envRep env) _ (by decide),
      replaceAll_no_occ envPat (envRep env)
        "\naws_region = \"us-east-1\"\ninstance_type = \"t3a.medium\"\nuse_elastic_ip = false\ncreate_rds = false\n".toList
        (by decide)]
    simp only [envRep, List.append_assoc]
    rfl
  have h2 : replaceAll regionPat (regionRep region)
        ("# Terraform variables\nenvironment = \"".toList ++ (env
          ++ ('"' :: ("\n".toList ++ (regionPat
          ++ "\ninstance_type = \"t3a.medium\"\nuse_elastic_ip = false\ncreate_rds = false\n".toList)))))
      = "# Terraform variables\nenvironment = \"".toList ++ (env
        ++ ('"' :: ("\naws_region = \"".toList ++ (region
        ++ ('"' :: ("\n".toList ++ (itypePat
        ++ "\nuse_elastic_ip = false\ncreate_rds = false\n".toList))))))) := by
    rw [skip_concrete regionPat (regionRep region)
        "# Terraform variables\nenvironment = \"".toList _ (by decide),
      skip_block regionPat (regionRep region) env _ '"' okChar henv
        (by decide) (by decide) (by decide),
      show ('"' :: ("\n".toList ++ (regionPat
          ++ "\ninstance_type = \"t3a.medium\"\nuse_elastic_ip = false\ncreate_rds = false\n".toList)))
        = "\"\n".toList ++ (regionPat
          ++ "\ninstance_type = \"t3a.medium\"\nuse_elastic_ip = false\ncreate_rds = false\n".toList)
        from rfl,
      skip_concrete regionPat (regionRep region) "\"\n".toList _ (by decide),
      replaceAll_head_match regionPat (regionRep region) _ (by decide),
      replaceAll_no_occ regionPat (regionRep region)
        "\ninstance_type = \"t3a.medium\"\nuse_elastic_ip = false\ncreate_rds = false\n".toList
        (by decide)]
    simp only [regionRep, List.append_assoc]
    rfl
  have h3 : replaceAll itypePat (itypeRep itype)
        ("# Terraform variables\nenvironment = \"".toList ++ (env
          ++ ('"' :: ("\naws_region = \"".toList ++ (region
          ++ ('"' :: ("\n".toList ++ (itypePat
          ++ "\nuse_elastic_ip = false\ncreate_rds = false\n".toList))))))))
      = "# Terraform variables\nenvironment = \"".toList ++ (env
        ++ ('"' :: ("\naws_region = \"".toList ++ (region
        ++ ('"' :: ("\ninstance_type = \"".toList ++ (itype
        ++ ('"' :: ("\n".toList ++ (eipPat
        ++ "\ncreate_rds = false\n".toList)))))))))) := by
    rw [skip_concrete itypePat (itypeRep itype)
        "# Terraform variables\nenvironment = \"".toList _ (by decide),
      skip_block itypePat (itypeRep itype) env _ '"' okChar henv
        (by decide) (by decide) (by decide),
      show ('"' :: ("\naws_region = \"".toList ++ (region
          ++ ('"' :: ("\n".toList ++ (itypePat
          ++ "\nuse_elastic_ip = false\ncreate_rds = false\n".toList))))))
        = "\"\naws_region = \"".toList ++ (region
          ++ ('"' :: ("\n".toList ++ (itypePat
          ++ "\nuse_elastic_ip = false\ncreate_rds = false\n".toList))))
        from rfl,
      skip_concrete itypePat (itypeRep itype) "\"\naws_region = \"".toList _
        (by decide),
      skip_block itypePat (itypeRep itype) region _ '"' okChar hreg
        (by decide) (by decide) (by decide),
      show ('"' :: ("\n".toList ++ (itypePat
          ++ "\nuse_elastic_ip = false\ncreate_rds = false\n".toList)))
        = "\"\n".toList ++ (itypePat
          ++ "\nuse_elastic_ip = false\ncreate_rds = false\n".toList)
        from rfl,
      skip_concrete itypePat (itypeRep itype) "\"\n".toList _ (by decide),
      replaceAll_head_match itypePat (itypeRep itype) _ (by decide),
      replaceAll_no_occ itypePat (itypeRep itype)
        "\nuse_elastic_ip = false\ncreate_rds = false\n".toList (by decide)]
    simp only [itypeRep, List.append_assoc]
    rfl
  have h4 : replaceAll eipPat (eipRep eip)
        ("# Terraform variables\nenvironment = \"".toList ++ (env
          ++ ('"' :: ("\naws_region = \"".toList ++ (region
          ++ ('"' :: ("\ninstance_type = \"".toList ++ (itype
          ++ ('"' :: ("\n".toList ++ (eipPat
          ++ "\ncreate_rds = false\n".toList)))))))))))
      = "# Terraform variables\nenvironment = \"".toList ++ (env
        ++ ('"' :: ("\naws_region = \"".toList ++ (region
        ++ ('"' :: ("\ninstance_type = \"".toList ++ (itype
        ++ ('"' :: ("\nuse_elastic_ip = ".toList ++ (pyBoolStr eip
        ++ ('\n' :: (rdsPat ++ "\n".toList)))))))))))) := by
    rw [skip_concrete eipPat (eipRep eip)
        "# Terraform variables\nenvironment = \"".toList _ (by decide),
      skip_block eipPat (eipRep eip) env _ '"' okChar henv
        (by decide) (by decide) (by decide),
      show ('"' :: ("\naws_region = \"".toList ++ (region
          ++ ('"' :: ("\ninstance_type = \"".toList ++ (itype
          ++ ('"' :: ("\n".toList ++ (eipPat
          ++ "\ncreate_rds = false\n".toList)))))))))
        = "\"\naws_region = \"".toList ++ (region
          ++ ('"' :: ("\ninstance_type = \"".toList ++ (itype
          ++ ('"' :: ("\n".toList ++ (eipPat
          ++ "\ncreate_rds = false\n".toList)))))))
        from rfl,
      skip_concrete eipPat (eipRep eip) "\"\naws_region = \"".toList _
        (by decide),
      skip_block eipPat (eipRep eip) region _ '"' okChar hreg
        (by decide) (by decide) (by decide),
      show ('"' :: ("\ninstance_type = \"".toList ++ (itype
          ++ ('"' :: ("\n".toList ++ (eipPat
          ++ "\ncreate_rds = false\n".toList))))))
        = "\"\ninstance_type = \"".toList ++ (itype
          ++ ('"' :: ("\n".toList ++ (eipPat
          ++ "\ncreate_rds = false\n".toList))))
        from rfl,
      skip_concrete eipPat (eipRep eip) "\"\ninstance_type = \"".toList _
        (by decide),
      skip_block eipPat (eipRep eip) itype _ '"' okChar hit
        (by decide) (by decide) (by decide),
      show ('"' :: ("\n".toList ++ (eipPat ++ "\ncreate_rds = false\n".toList)))
        = "\"\n".toList ++ (eipPat ++ "\ncreate_rds = false\n".toList)
        from rfl,
      skip_concrete eipPat (eipRep eip) "\"\n".toList _ (by decide),
      replaceAll_head_match eipPat (eipRep eip) _ (by decide),
      replaceAll_no_occ eipPat (eipRep eip) "\ncreate_rds = false\n".toList
        (by decide)]
    simp only [eipRep, List.append_assoc]
    rfl
  have h5 : replaceAll rdsPat (rdsRep rds)
        ("# Terraform variables\nenvironment = \"".toList ++ (env
          ++ ('"' :: ("\naws_region = \"".toList ++ (region
          ++ ('"' :: ("\ninstance_type = \"".toList ++ (itype
          ++ ('"' :: ("\nuse_elastic_ip = ".toList ++ (pyBoolStr eip
          ++ ('\n' :: (rdsPat ++ "\n".toList)))))))))))))
      = "# Terraform variables\nenvironment = \"".toList ++ (env
        ++ ('"' :: ("\naws_region = \"".toList ++ (region
        ++ ('"' :: ("\ninstance_type = \"".toList ++ (itype
        ++ ('"' :: ("\nuse_elastic_ip = ".toList ++ (pyBoolStr eip
        ++ ("\ncreate_rds = ".toList ++ (pyBoolStr rds
        ++ "\n".toList)))))))))))) := by
    rw [skip_concrete rdsPat (rdsRep rds)
        "# Terraform variables\nenvironment = \"".toList _ (by decide),
      skip_block rdsPat (rdsRep rds) env _ '"' okChar henv
        (by decide) (by decide) (by decide),
      show ('"' :: ("\naws_region = \"".toList ++ (region
          ++ ('"' :: ("\ninstance_type = \"".toList ++ (itype
          ++ ('"' :: ("\nuse_elastic_ip = ".toList ++ (pyBoolStr eip
          ++ ('\n' :: (rdsPat ++ "\n".toList)))))))))))
        = "\"\naws_region = \"".toList ++ (region
          ++ ('"' :: ("\ninstance_type = \"".toList ++ (itype
          ++ ('"' :: ("\nuse_elastic_ip = ".toList ++ (pyBoolStr eip
          ++ ('\n' :: (rdsPat ++ "\n".toList)))))))))
        from rfl,
      skip_concrete rdsPat (rdsRep rds) "\"\naws_region = \"".toList _
        (by decide),
      skip_block rdsPat (rdsRep rds) region _ '"' okChar hreg
        (by decide) (by decide) (by decide),
      show ('"' :: ("\ninstance_type = \"".toList ++ (itype
          ++ ('"' :: ("\nuse_elastic_ip = ".toList ++ (pyBoolStr eip
          ++ ('\n' :: (rdsPat ++ "\n".toList))))))))
        = "\"\ninstance_type = \"".toList ++ (itype
          ++ ('"' :: ("\nuse_elastic_ip = ".toList ++ (pyBoolStr eip
          ++ ('\n' :: (rdsPat ++ "\n".toList))))))
        from rfl,
      skip_concrete rdsPat (rdsRep rds) "\"\ninstance_type = \"".toList _
        (by decide),
      skip_block rdsPat (rdsRep rds) itype _ '"' okChar hit
        (by decide) (by decide) (by decide),
      show ('"' :: ("\nuse_elastic_ip = ".toList ++ (pyBoolStr eip
          ++ ('\n' :: (rdsPat ++ "\n".toList)))))
        = "\"\nuse_elastic_ip = ".toList ++ (pyBoolStr eip
          ++ ('\n' :: (rdsPat ++ "\n".toList)))
        from rfl,
      skip_concrete rdsPat (rdsRep rds) "\"\nuse_elastic_ip = ".toList _
        (by decide),
      skip_block rdsPat (rdsRep rds) (pyBoolStr eip) _ '\n' okChar
        (pyBoolStr_all_ok eip) (by decide) (by decide) (by decide),
      show ('\n' :: (rdsPat ++ "\n".toList))
        = "\n".toList ++ (rdsPat ++ "\n".toList) from rfl,
      skip_concrete rdsPat (rdsRep rds) "\n".toList _ (by decide),
      replaceAll_head_match rdsPat (rdsRep rds) _ (by decide),
      replaceAll_no_occ rdsPat (rdsRep rds) "\n".toList (by decide)]
    simp only [rdsRep, List.append_assoc]
    rfl
  unfold deriveTfvars
  rw [h1, h2, h3, h4, h5]

lemma winrmGo_allfail (res : Nat → ConnResult) (maxAttempts : Nat)
    (h : ∀ i, res i ≠ ConnResult.code 0) :
    ∀ budget att, (winrmGo res maxAttempts budget att).2 = false ∧
      (winrmGo res maxAttempts budget att).1.countP isAttemptEvent = budget := by
  intro budget
  induction budget with
  | zero => intro att; exact ⟨rfl, rfl⟩
  | succ b ih =>
    intro att
    by_cases hl : att < maxAttempts
    · simp [winrmGo, h att, hl, List.countP_cons, isAttemptEvent, ih (att + 1)]
    · simp [winrmGo, h att, hl, List.countP_cons, isAttemptEvent, ih (att + 1)]

/-! ### Orchestration branch equations -/

lemma configure_eq_notready (w : World) (ip id : List Char)
    (hc : (test_winrm_connectivity w.conn 20).2 = false) :
    configure_with_ansible w ip id
      = ([ CEvent.logNotReady, CEvent.logManualCmd ], w.inventory) := by
  simp [configure_with_ansible, hc]

lemma configure_eq_nopwd (w : World) (ip id : List Char)
    (hc : ¬ (test_winrm_connectivity w.conn 20).2 = false)
    (hp : w.passwordData = []) :
    configure_with_ansible w ip id
      = ([ CEvent.getPassword id, CEvent.logPwdManualCmd id ], w.inventory) := by
  simp [configure_with_ansible, hc, hp]

lemma configure_eq_pwd (w : World) (ip id : List Char)
    (hc : ¬ (test_winrm_connectivity w.conn 20).2 = false)
    (hp : ¬ w.passwordData = []) :
    configure_with_ansible w ip id
      = (CEvent.getPassword id :: CEvent.logPwdRetrieved
          :: CEvent.writeInventory (updateInventory ip w.passwordData w.inventory)
          :: CEvent.logUpdatedInventory ip
          :: CEvent.logPlaybookStart
          :: (runPlaybookRetries w.playbookRc ansibleMaxRetries).1.map pbEventToC
        ++ (if (runPlaybookRetries w.playbookRc ansibleMaxRetries).2
            then [ CEvent.logPlaybookOk ]
            else [ CEvent.logPlaybookFailed (ansibleMaxRetries + 1) ])
        ++ [ CEvent.logRdpInfo ip, CEvent.logIisInfo ip,
             CEvent.logAdminPassword w.passwordData ],
        updateInventory ip w.passwordData w.inventory) := by
  simp [configure_with_ansible, hc, hp]

lemma logsSecret_pbEventToC (p : PEvent) :
    logsSecretInFull (pbEventToC p) = false := by
  cases p <;> rfl

lemma getLast_snoc {α : Type} (xs : List α) (a : α) :
    (xs ++ [ a ]).getLast? = some a := by
  rw [List.getLast?_eq_head?_reverse, List.reverse_append]
  rfl

lemma logsSecret_elim (e : CEvent) (hs : logsSecretInFull e = true) :
    ∃ v, e = CEvent.logAdminPassword v := by
  cases e <;> first
    | exact ⟨_, rfl⟩
    | simp [logsSecretInFull] at hs

/-! ### Claim theorems -/

/-- C1: the Configuration Phase retry controller (deploy.py:270-302)
invokes the configuration engine at most `maxRetries + 1` times (the
source sets `max_retries = 2`, giving at most `ansibleMaxRetries + 1 = 3`
invocations); its trace is exactly one sleep-free first invocation
followed by `k - 1` blocks, each consisting of exactly one 30-second
stabilization sleep and then the next invocation, so the sleep occurs
exactly between two consecutive invocations; every invocation before the
last one failed, success is reported iff the last invocation exited 0, and
when the controller reports failure the full budget was used.  No sleep
precedes the first invocation and none follows the last. -/
theorem retry_controller_trace (rcs : Nat → Int) (maxRetries : Nat) :
    ∃ k, 1 ≤ k ∧ k ≤ maxRetries + 1 ∧
      (runPlaybookRetries rcs maxRetries).1 = playbookTraceShape rcs k ∧
      (runPlaybookRetries rcs maxRetries).1.countP isRunEvent = k ∧
      (∀ i, i + 1 < k → rcs i ≠ 0) ∧
      ((runPlaybookRetries rcs maxRetries).2 = true ↔ rcs (k - 1) = 0) ∧
      ((runPlaybookRetries rcs maxRetries).2 = false
        → k = maxRetries + 1) := by
  obtain ⟨k, hk1, hkle, htr, hfail, hiff, hex⟩ :=
    runPlaybookRetries_shape rcs maxRetries
  have hcount : (playbookTraceShape rcs k).countP isRunEvent
      = (k - 1) + 1 := by
    unfold playbookTraceShape
    simp [List.countP_cons, isRunEvent, countP_sleepRunBlocks]
  refine ⟨k, hk1, hkle, htr, ?_, hfail, hiff, hex⟩
  rw [htr, hcount]
  omega

/-- C2: for every outcome oracle, the prober (deploy.py:106-140) stops at
some attempt `k ≤ maxAttempts`; its trace is one connection attempt with a
5-second timeout followed by `k - 1` blocks of exactly one 30-second sleep
and the next attempt (so it returns immediately on the first success, with
no further attempts and no further sleeps); every attempt before the `k`-th
failed, it returns true iff the `k`-th attempt succeeded, and a false
return means all `maxAttempts` attempts were used. -/
theorem readiness_prober_trace (res : Nat → ConnResult) (maxAttempts : Nat)
    (h : 1 ≤ maxAttempts) :
    ∃ k, 1 ≤ k ∧ k ≤ maxAttempts ∧
      (test_winrm_connectivity res maxAttempts).1 = winrmTraceShape k ∧
      (test_winrm_connectivity res maxAttempts).1.countP isAttemptEvent
        = k ∧
      (∀ i, 1 ≤ i → i < k → res i ≠ ConnResult.code 0) ∧
      ((test_winrm_connectivity res maxAttempts).2 = true
        ↔ res k = ConnResult.code 0) ∧
      ((test_winrm_connectivity res maxAttempts).2 = false
        → k = maxAttempts) ∧
      (∀ e ∈ (test_winrm_connectivity res maxAttempts).1,
        e = WEvent.connAttempt 5 ∨ e = WEvent.sleep 30) := by
  obtain ⟨k, hk1, hkle, htr, hfail, hiff, hex⟩ :=
    winrmGo_succeeds res maxAttempts maxAttempts 1 h (by omega)
  have htr' : (test_winrm_connectivity res maxAttempts).1
      = winrmTraceShape k := htr
  refine ⟨k, hk1, hkle, htr', ?_, ?_, ?_, hex, ?_⟩
  · rw [htr']
    unfold winrmTraceShape
    have : (wAttemptBlocks (k - 1)).countP isAttemptEvent = k - 1 :=
      countP_wAttemptBlocks (k - 1)
    simp [List.countP_cons, isAttemptEvent, this]
    omega
  · intro i h1 h2
    have he : i = 1 + (i - 1) := by omega
    rw [he]
    exact hfail (i - 1) (by omega)
  · have he : 1 + (k - 1) = k := by omega
    rw [← he]
    exact hiff
  · intro e he
    rw [htr'] at he
    unfold winrmTraceShape at he
    rcases List.mem_cons.mp he with h | h
    · exact Or.inl h
    · exact mem_wAttemptBlocks _ _ h

/-- C2 witness: the prober probing a host that always throws, with the
default budget of 20 attempts. -/
theorem readiness_prober_trace_witness :
    1 ≤ 20 ∧
    (∃ k, 1 ≤ k ∧ k ≤ 20 ∧
      (test_winrm_connectivity (fun _ => ConnResult.exc) 20).1
        = winrmTraceShape k ∧
      (test_winrm_connectivity (fun _ => ConnResult.exc) 20).1.countP
        isAttemptEvent = k ∧
      (∀ i, 1 ≤ i → i < k
        → (fun _ : Nat => ConnResult.exc) i ≠ ConnResult.code 0) ∧
      ((test_winrm_connectivity (fun _ => ConnResult.exc) 20).2 = true
        ↔ (fun _ : Nat => ConnResult.exc) k = ConnResult.code 0) ∧
      ((test_winrm_connectivity (fun _ => ConnResult.exc) 20).2 = false
        → k = 20) ∧
      (∀ e ∈ (test_winrm_connectivity (fun _ => ConnResult.exc) 20).1,
        e = WEvent.connAttempt 5 ∨ e = WEvent.sleep 30)) :=
  ⟨by decide, readiness_prober_trace (fun _ => ConnResult.exc) 20
    (by decide)⟩

/-- C7: for a host whose attempts never succeed, the prober returns false
after performing exactly `maxAttempts` connection attempts; the caught
exception outcome `ConnResult.exc` takes the same non-throwing path as a
nonzero result code, so the prober never propagates an exception. -/
theorem prober_exhaustion_returns_false (res : Nat → ConnResult)
    (maxAttempts : Nat) (h : ∀ i, res i ≠ ConnResult.code 0) :
    (test_winrm_connectivity res maxAttempts).2 = false ∧
    (test_winrm_connectivity res maxAttempts).1.countP isAttemptEvent
      = maxAttempts :=
  winrmGo_allfail res maxAttempts h maxAttempts 1

/-- C7 witness: a host that always throws, with the default 20-attempt
budget. -/
theorem prober_exhaustion_returns_false_witness :
    (∀ i : Nat, (fun _ : Nat => ConnResult.exc) i ≠ ConnResult.code 0) ∧
    ((test_winrm_connectivity (fun _ => ConnResult.exc) 20).2 = false ∧
      (test_winrm_connectivity (fun _ => ConnResult.exc) 20).1.countP
        isAttemptEvent = 20) :=
  ⟨fun _ h => ConnResult.noConfusion h,
    prober_exhaustion_returns_false (fun _ => ConnResult.exc) 20
      (fun _ h => ConnResult.noConfusion h)⟩

/-- C3 counterexample: the claim as written quantifies over every
host/secret pair, but for the host string `1a` and one inventory line
`  ansible_host: 9` the first edit yields `  ansible_host: 1a` and a second
application matches the digit run `1` again, yielding
`  ansible_host: 1aa`: the edit is not idempotent for hosts that start
with a digit run but contain further characters. -/
theorem inventory_edit_idempotent_cx :
    updateInventory "1a".toList "p".toList
        (updateInventory "1a".toList "p".toList
          "  ansible_host: 9".toList)
      ≠ updateInventory "1a".toList "p".toList
          "  ansible_host: 9".toList := by decide

/-- C3 (amended): the targeted inventory edit is idempotent for every
host that is a nonempty string of digits and dots (as every IPv4 address
passed by the deploy flow is) and every secret containing no double quote,
no newline and no backslash: applying the edit twice with the same
host/secret yields a file byte-identical to applying it once, for every
inventory text.  The backslash-free hypotheses make the literal-insertion
embedding of the replacement templates exact: `re.sub` processes backslash
escapes in the replacement, so a secret such as `\g<0>` — quote-free and
newline-free, but not backslash-free — would be rewritten to the whole
matched text and break idempotence in the real program. -/
theorem inventory_edit_idempotent (ip pwd c : List Char)
    (hip : ip ≠ []) (hipd : ip.all digitDot = true)
    (hpq : pwd.all (fun x => x != '"') = true)
    (hpn : pwd.all (fun x => x != '\n') = true)
    (hpb : pwd.all (fun x => x != '\\') = true) :
    updateInventory ip pwd (updateInventory ip pwd c)
      = updateInventory ip pwd c :=
  updateInventory_idem_aux ip pwd c hip hipd hpq hpn

/-- C3 witness: a realistic inventory edited with an IPv4 host and a
quote-free, newline-free, backslash-free secret. -/
theorem inventory_edit_idempotent_witness :
    ("10.0.0.7".toList ≠ ([] : List Char)) ∧
    "10.0.0.7".toList.all digitDot = true ∧
    "s3cr3t".toList.all (fun x => x != '"') = true ∧
    "s3cr3t".toList.all (fun x => x != '\n') = true ∧
    "s3cr3t".toList.all (fun x => x != '\\') = true ∧
    updateInventory "10.0.0.7".toList "s3cr3t".toList
        (updateInventory "10.0.0.7".toList "s3cr3t".toList
          "all:\n  hosts:\n    dc1:\n      ansible_host: 1.2.3.4\n      ansible_password: \"old\"\n".toList)
      = updateInventory "10.0.0.7".toList "s3cr3t".toList
          "all:\n  hosts:\n    dc1:\n      ansible_host: 1.2.3.4\n      ansible_password: \"old\"\n".toList :=
  ⟨by decide, by decide, by decide, by decide, by decide,
    inventory_edit_idempotent "10.0.0.7".toList "s3cr3t".toList
      "all:\n  hosts:\n    dc1:\n      ansible_host: 1.2.3.4\n      ansible_password: \"old\"\n".toList
      (by decide) (by decide) (by decide) (by decide) (by decide)⟩

/-- C5: for every request whose environment, region and instance shape
are words over alphanumerics, dash, dot and underscore, deriving the
variables file from the (spec-modelled) template substitutes exactly the
five known default values — the three quoted string fields and the two
lowercased boolean flags — and leaves every other byte of the template,
including the comment line and all keys, punctuation and newlines,
byte-identical. -/
theorem tfvars_substitution (env region itype : List Char) (eip rds : Bool)
    (henv : env.all okChar = true) (hreg : region.all okChar = true)
    (hit : itype.all okChar = true) :
    deriveTfvars env region itype eip rds tfvarsTemplate
      = "# Terraform variables\nenvironment = \"".toList ++ (env
        ++ ('"' :: ("\naws_region = \"".toList ++ (region
        ++ ('"' :: ("\ninstance_type = \"".toList ++ (itype
        ++ ('"' :: ("\nuse_elastic_ip = ".toList ++ (pyBoolStr eip
        ++ ("\ncreate_rds = ".toList ++ (pyBoolStr rds
        ++ "\n".toList)))))))))))) :=
  deriveTfvars_correct env region itype eip rds henv hreg hit

/-- C5 witness: a concrete request overriding all five fields. -/
theorem tfvars_substitution_witness :
    "prod".toList.all okChar = true ∧
    "eu-west-1".toList.all okChar = true ∧
    "t3.large".toList.all okChar = true ∧
    deriveTfvars "prod".toList "eu-west-1".toList "t3.large".toList
        true false tfvarsTemplate
      = "# Terraform variables\nenvironment = \"".toList ++ ("prod".toList
        ++ ('"' :: ("\naws_region = \"".toList ++ ("eu-west-1".toList
        ++ ('"' :: ("\ninstance_type = \"".toList ++ ("t3.large".toList
        ++ ('"' :: ("\nuse_elastic_ip = ".toList ++ (pyBoolStr true
        ++ ("\ncreate_rds = ".toList ++ (pyBoolStr false
        ++ "\n".toList)))))))))))) :=
  ⟨by decide, by decide, by decide,
    tfvars_substitution "prod".toList "eu-west-1".toList "t3.large".toList
      true false (by decide) (by decide) (by decide)⟩

/-- C6: when no connection attempt ever succeeds, the configuration phase
emits exactly the not-ready warning and the manual-recovery command log,
leaves the inventory untouched (so the secret is never retrieved, the
inventory is never written, and the engine is never invoked), and the
deploy action of `main` falls through to exit code 0. -/
theorem readiness_failure_skips_configuration (w : World)
    (ip id : List Char) (h : ∀ i, w.conn i ≠ ConnResult.code 0) :
    configure_with_ansible w ip id
        = ([ CEvent.logNotReady, CEvent.logManualCmd ], w.inventory) ∧
      mainDeploy w ip id false
        = ([ CEvent.logNotReady, CEvent.logManualCmd ], w.inventory, 0) := by
  have hf : (test_winrm_connectivity w.conn 20).2 = false :=
    (winrmGo_allfail w.conn 20 h 20 1).1
  have h1 := configure_eq_notready w ip id hf
  exact ⟨h1, by simp [mainDeploy, h1]⟩

/-- C6 witness: a world whose connection attempts always throw. -/
theorem readiness_failure_skips_configuration_witness :
    (∀ i : Nat, (World.mk (fun _ => ConnResult.exc) "pw".toList
        "inv".toList (fun _ => 0)).conn i ≠ ConnResult.code 0) ∧
    (configure_with_ansible (World.mk (fun _ => ConnResult.exc)
          "pw".toList "inv".toList (fun _ => 0)) "ip".toList "id".toList
        = ([ CEvent.logNotReady, CEvent.logManualCmd ],
           (World.mk (fun _ => ConnResult.exc) "pw".toList "inv".toList
             (fun _ => 0)).inventory) ∧
      mainDeploy (World.mk (fun _ => ConnResult.exc) "pw".toList
          "inv".toList (fun _ => 0)) "ip".toList "id".toList false
        = ([ CEvent.logNotReady, CEvent.logManualCmd ],
           (World.mk (fun _ => ConnResult.exc) "pw".toList "inv".toList
             (fun _ => 0)).inventory, 0)) :=
  ⟨fun _ hx => ConnResult.noConfusion hx,
    readiness_failure_skips_configuration
      (World.mk (fun _ => ConnResult.exc) "pw".toList "inv".toList
        (fun _ => 0)) "ip".toList "id".toList
      (fun _ hx => ConnResult.noConfusion hx)⟩

/-- C8 counterexample: the claim says configuration-only mode treats a
missing secret field as recoverable, but `ansible_only` (deploy.py:340-343)
logs an error and calls `sys.exit(1)` — a hard process failure — when
`'ansible_password:'` does not occur in the inventory, as on the empty
inventory. -/
theorem ansible_only_missing_password_cx :
    ansible_only [] 0 = ([ AEvent.logErrNoPwd ], 1) := by decide

/-- C8 (amended): in configuration-only mode, whenever the inventory does
not contain the substring `ansible_password:`, the run logs the
missing-password error, never invokes the playbook, and terminates with
exit code 1 (a hard failure, not a recoverable warning/skip). -/
theorem ansible_only_missing_password_exits (inv : List Char) (rc : Int)
    (h : hasSubstring litPwd inv = false) :
    ansible_only inv rc = ([ AEvent.logErrNoPwd ], 1) := by
  simp [ansible_only, h]

/-- C8 witness: the empty inventory has no secret field. -/
theorem ansible_only_missing_password_exits_witness :
    hasSubstring litPwd [] = false ∧
    ansible_only [] 0 = ([ AEvent.logErrNoPwd ], 1) :=
  ⟨by decide, ansible_only_missing_password_exits [] 0 (by decide)⟩

/-- C9: in every world, any configuration-phase log event that
interpolates the secret's value is the final-summary line
`Administrator Password: {password}`, and that event is the last event of
the trace: every other log line emitted while the secret is held omits
the secret's value. -/
theorem secret_logged_only_in_final_summary (w : World)
    (ip id : List Char) :
    ∀ e ∈ (configure_with_ansible w ip id).1, logsSecretInFull e = true →
      e = CEvent.logAdminPassword w.passwordData ∧
      (configure_with_ansible w ip id).1.getLast?
        = some (CEvent.logAdminPassword w.passwordData) := by
  intro e he hs
  obtain ⟨v, rfl⟩ := logsSecret_elim e hs
  by_cases hc : (test_winrm_connectivity w.conn 20).2 = false
  · rw [configure_eq_notready w ip id hc] at he
    simp at he
  · by_cases hp : w.passwordData = []
    · rw [configure_eq_nopwd w ip id hc hp] at he
      simp at he
    · rw [configure_eq_pwd w ip id hc hp] at he
      rw [configure_eq_pwd w ip id hc hp]
      have hv : v = w.passwordData := by
        simp only [List.mem_cons, List.mem_append, List.mem_map,
          List.not_mem_nil, or_false, or_assoc] at he
        rcases he with h | h | h | h | h | h | h | h | h | h
        · exact absurd h (by simp)
        · exact absurd h (by simp)
        · exact absurd h (by simp)
        · exact absurd h (by simp)
        · exact absurd h (by simp)
        · obtain ⟨p, _, hpe⟩ := h
          cases p <;> simp [pbEventToC] at hpe
        · by_cases hb : (runPlaybookRetries w.playbookRc
              ansibleMaxRetries).2 = true
          · rw [if_pos hb] at h
            simp at h
          · rw [if_neg hb] at h
            simp at h
        · exact absurd h (by simp)
        · exact absurd h (by simp)
        · exact CEvent.logAdminPassword.inj h
      subst hv
      refine ⟨rfl, ?_⟩
      rw [show [ CEvent.logRdpInfo ip, CEvent.logIisInfo ip,
          CEvent.logAdminPassword w.passwordData ]
        = [ CEvent.logRdpInfo ip, CEvent.logIisInfo ip ]
          ++ [ CEvent.logAdminPassword w.passwordData ] from rfl]
      rw [← List.append_assoc]
      simp only [← List.cons_append]
      exact getLast_snoc _ _

/-- C9 witness: a run that reaches the final summary; the secret-bearing
event occurs in its trace and is identified as the final summary line. -/
theorem secret_logged_only_in_final_summary_witness :
    CEvent.logAdminPassword "pw".toList
        ∈ (configure_with_ansible (World.mk (fun _ => ConnResult.code 0)
            "pw".toList "inv".toList (fun _ => 0)) "ip".toList
            "id".toList).1 ∧
    logsSecretInFull (CEvent.logAdminPassword "pw".toList) = true ∧
    (CEvent.logAdminPassword "pw".toList
        = CEvent.logAdminPassword (World.mk (fun _ => ConnResult.code 0)
            "pw".toList "inv".toList (fun _ => 0)).passwordData ∧
      (configure_with_ansible (World.mk (fun _ => ConnResult.code 0)
            "pw".toList "inv".toList (fun _ => 0)) "ip".toList
            "id".toList).1.getLast?
        = some (CEvent.logAdminPassword
            (World.mk (fun _ => ConnResult.code 0) "pw".toList
              "inv".toList (fun _ => 0)).passwordData)) :=
  ⟨by decide, by decide,
    secret_logged_only_in_final_summary
      (World.mk (fun _ => ConnResult.code 0) "pw".toList "inv".toList
        (fun _ => 0)) "ip".toList "id".toList
      (CEvent.logAdminPassword "pw".toList) (by decide) (by decide)⟩

/-- C10: if the retrieved secret is empty (falsy), the configuration phase
returns the inventory unchanged and its trace contains no inventory write
and no playbook invocation: the write and the engine run occur only on the
non-empty-secret path. -/
theorem empty_secret_leaves_inventory_unchanged (w : World)
    (ip id : List Char) (hp : w.passwordData = []) :
    (configure_with_ansible w ip id).2 = w.inventory ∧
    ∀ e ∈ (configure_with_ansible w ip id).1,
      isWriteEvent e = false ∧ isPlaybookEvent e = false := by
  by_cases hc : (test_winrm_connectivity w.conn 20).2 = false
  · rw [configure_eq_notready w ip id hc]
    refine ⟨rfl, ?_⟩
    intro e he
    simp only [List.mem_cons, List.not_mem_nil, or_false] at he
    rcases he with h | h <;> subst h <;> exact ⟨rfl, rfl⟩
  · rw [configure_eq_nopwd w ip id hc hp]
    refine ⟨rfl, ?_⟩
    intro e he
    simp only [List.mem_cons, List.not_mem_nil, or_false] at he
    rcases he with h | h <;> subst h <;> exact ⟨rfl, rfl⟩

/-- C10 witness: a reachable world whose secret retrieval returns the
empty string. -/
theorem empty_secret_leaves_inventory_unchanged_witness :
    (World.mk (fun _ => ConnResult.code 0) [] "inv".toList
        (fun _ => 0)).passwordData = [] ∧
    ((configure_with_ansible (World.mk (fun _ => ConnResult.code 0) []
          "inv".toList (fun _ => 0)) "ip".toList "id".toList).2
        = (World.mk (fun _ => ConnResult.code 0) [] "inv".toList
            (fun _ => 0)).inventory ∧
      ∀ e ∈ (configure_with_ansible (World.mk (fun _ => ConnResult.code 0)
          [] "inv".toList (fun _ => 0)) "ip".toList "id".toList).1,
        isWriteEvent e = false ∧ isPlaybookEvent e = false) :=
  ⟨rfl, empty_secret_leaves_inventory_unchanged
    (World.mk (fun _ => ConnResult.code 0) [] "inv".toList (fun _ => 0))
    "ip".toList "id".toList rfl⟩

end Deploy
